import Mathlib

/-!
Verification of the jsonfix normalization pipeline.

This file is a shallow embedding of the Python sources
(src/jsonfix/repairs.py, src/jsonfix/normalizers.py, src/jsonfix/parser.py)
into Lean 4.  Texts are embedded as `List Char`, machine integers as `Nat`.
Python loops with an index `i` over `text` are embedded as fuel-based
recursions over the remaining suffix `text.drop i`; every loop iteration of
the source advances `i` by at least one, so a fuel of `text.length + 1`
never runs out.  Each normalizer in the source takes a `repair_log` list and
only ever appends to it; we embed a normalizer as a function returning the
new text together with the list of newly appended repairs (the delta), and
the pipeline driver does the appending.
-/

namespace Jsonfix

/-- Named characters, used where a literal would be awkward to write. -/
def dquote : Char := Char.ofNat 34

/-- The ASCII apostrophe character. -/
def squote : Char := Char.ofNat 39

/-- The backslash character. -/
def bslash : Char := Char.ofNat 92

/-- The opening curly brace character. -/
def lbrace : Char := Char.ofNat 123

/-- The closing curly brace character. -/
def rbrace : Char := Char.ofNat 125

/-- All repair-kind names that the implementation refers to via
`RepairKind.NAME`.  The Python enum `RepairKind` in repairs.py only defines
the first eleven members (the V1 and V2 kinds); the remaining ten names are
referenced by the V3 normalizers in normalizers.py but are absent from the
enum class, so evaluating such an attribute access raises `AttributeError`
in Python.  Membership in the actual enum is recorded by
`RepairKind.definedInEnum` below. -/
inductive RepairKind where
  | TRAILING_COMMA
  | SINGLE_LINE_COMMENT
  | MULTI_LINE_COMMENT
  | HASH_COMMENT
  | SMART_QUOTE
  | SINGLE_QUOTE_STRING
  | UNQUOTED_KEY
  | PYTHON_LITERAL
  | UNESCAPED_NEWLINE
  | MISSING_BRACKET
  | TRUNCATION_MARKER
  | MARKDOWN_FENCE_REMOVED
  | JSON_EXTRACTED
  | MISSING_COLON
  | MISSING_COMMA
  | CONTROL_CHARACTER
  | UNESCAPED_BACKSLASH
  | UNESCAPED_QUOTE
  | DOUBLE_COMMA
  | JAVASCRIPT_VALUE
  | NUMBER_FORMAT
  deriving DecidableEq, Repr

/-- Whether a repair-kind name is actually a member of the Python enum class
`RepairKind` in repairs.py (lines 9-24).  The V3 kinds are referenced by the
normalizers but never declared there. -/
def RepairKind.definedInEnum : RepairKind → Bool
  | .TRAILING_COMMA => true
  | .SINGLE_LINE_COMMENT => true
  | .MULTI_LINE_COMMENT => true
  | .HASH_COMMENT => true
  | .SMART_QUOTE => true
  | .SINGLE_QUOTE_STRING => true
  | .UNQUOTED_KEY => true
  | .PYTHON_LITERAL => true
  | .UNESCAPED_NEWLINE => true
  | .MISSING_BRACKET => true
  | .TRUNCATION_MARKER => true
  | _ => false

/-- Record of a single repair (dataclass `Repair` in repairs.py). -/
structure Repair where
  kind : RepairKind
  position : Nat
  line : Nat
  column : Nat
  original : List Char
  replacement : List Char
  message : List Char
  deriving DecidableEq, Repr

/-- Python `text.split(chr(10))`: split on newline characters, keeping empty
parts; the result is always non-empty. -/
def pySplitNl : List Char → List (List Char)
  | [] => [[]]
  | c :: rest =>
    let r := pySplitNl rest
    if c = '\n' then [] :: r
    else
      match r with
      | [] => [[c]]
      | h :: t => (c :: h) :: t

theorem pySplitNl_ne_nil (l : List Char) : pySplitNl l ≠ [] := by
  induction l with
  | nil => simp [pySplitNl]
  | cons c rest ih =>
    simp only [pySplitNl]
    split
    · simp
    · match h : pySplitNl rest with
      | [] => exact absurd h ih
      | a :: b => simp

/-- `_calculate_line_column` from repairs.py: 1-indexed line and column of a
0-indexed position, clamped into `[0, length]`.  Positions are `Nat` here, so
only the upper clamp is needed. -/
def calculateLineColumn (text : List Char) (position : Nat) : Nat × Nat :=
  let p := min position text.length
  let before := text.take p
  let lines := pySplitNl before
  let line := lines.length
  let column := (lines.getLast ( pySplitNl_ne_nil before)).length + 1
  (line, column)

theorem calculateLineColumn_pos (text : List Char) (position : Nat) :
    1 ≤ (calculateLineColumn text position).1 ∧
      1 ≤ (calculateLineColumn text position).2 := by
  unfold calculateLineColumn
  refine ⟨?_, Nat.le_add_left 1 _⟩
  have h := pySplitNl_ne_nil (text.take (min position text.length))
  exact Nat.one_le_iff_ne_zero.mpr (by simpa [List.length_eq_zero] using h)

/-- Comment previews in messages: `original[:30] + "..."` when longer than
30 characters. -/
def preview30 (original : List Char) : List Char :=
  if original.length > 30 then original.take 30 ++ ("...".toList) else original

/-- The kind-specific message template of `create_repair` in repairs.py. -/
def repairMessage (kind : RepairKind) (original replacement : List Char) :
    List Char :=
  match kind with
  | .TRAILING_COMMA => "Removed trailing comma".toList
  | .SINGLE_LINE_COMMENT =>
      "Removed single-line comment ".toList ++ [squote] ++ preview30 original
        ++ [squote]
  | .MULTI_LINE_COMMENT =>
      "Removed multi-line comment ".toList ++ [squote] ++ preview30 original
        ++ [squote]
  | .HASH_COMMENT =>
      "Removed hash comment ".toList ++ [squote] ++ preview30 original
        ++ [squote]
  | .SMART_QUOTE =>
      "Replaced smart quote ".toList ++ [squote] ++ original ++ [squote]
        ++ " with ".toList ++ [squote] ++ replacement ++ [squote]
  | .SINGLE_QUOTE_STRING =>
      "Converted single-quoted string ".toList ++ [squote] ++ preview30 original
        ++ [squote] ++ " to double quotes".toList
  | .UNQUOTED_KEY =>
      "Added quotes around unquoted key ".toList ++ [squote] ++ original
        ++ [squote]
  | .PYTHON_LITERAL =>
      "Converted Python literal ".toList ++ [squote] ++ original ++ [squote]
        ++ " to JSON ".toList ++ [squote] ++ replacement ++ [squote]
  | .UNESCAPED_NEWLINE => "Escaped literal newline in string".toList
  | .MISSING_BRACKET =>
      "Added missing closing bracket ".toList ++ [squote] ++ replacement
        ++ [squote]
  | .TRUNCATION_MARKER =>
      "Removed truncation marker ".toList ++ [squote] ++ original ++ [squote]
  | _ => "Repaired: ".toList ++ original ++ " -> ".toList ++ replacement

/-- `create_repair` from repairs.py: build a `Repair` with computed line and
column and a kind-specific message. -/
def createRepair (kind : RepairKind) (text : List Char) (position : Nat)
    (original : List Char) (replacement : List Char := []) : Repair :=
  let lc := calculateLineColumn text position
  { kind := kind
    position := position
    line := lc.1
    column := lc.2
    original := original
    replacement := replacement
    message := repairMessage kind original replacement }

theorem createRepair_line_column_pos (kind : RepairKind) (text : List Char)
    (position : Nat) (original replacement : List Char) :
    1 ≤ (createRepair kind text position original replacement).line ∧
      1 ≤ (createRepair kind text position original replacement).column := by
  simpa [createRepair] using calculateLineColumn_pos text position

/-- Exceptions that can escape the pipeline, per parser.py and the actual
Python semantics.  `attributeError` models the `AttributeError` raised when a
normalizer evaluates `RepairKind.NAME` for a name that is not a member of the
enum class.  `relaxedJSON` is `RelaxedJSONError`, `repairGate` is the
`ValueError` raised by the driver in `on_repair=error` mode, and `jsonDecode`
is `json.JSONDecodeError` from the final strict parse. -/
inductive PyErr where
  | attributeError
  | relaxedJSON (message : List Char)
  | repairGate (line column : Nat) (message : List Char)
  | jsonDecode
  deriving DecidableEq, Repr

/-- Python `text.find(pat)` restricted to a suffix: index of the leftmost
occurrence of `pat` in `l`, if any. -/
def findSub (pat : List Char) : List Char → Option Nat
  | [] => if pat.isEmpty then some 0 else none
  | c :: rest =>
    if pat.isPrefixOf (c :: rest) then some 0
    else (findSub pat rest).map (· + 1)

/-- Python `comment.rstrip(chr(10))`: drop trailing newline characters. -/
def pyRstripNl (l : List Char) : List Char :=
  (l.reverse.dropWhile (fun c => c = '\n')).reverse

/-- Decimal digits of a natural number, for embedded f-string messages. -/
def natToChars (n : Nat) : List Char :=
  (Nat.repr n).toList

/-- Loop body of `_strip_comments` (parser.py lines 50-166).  `text` is the
full input, `i` the current index, `rest` is `text.drop i`, `prev` is the
character at `i - 1` (`none` at the start), `accRev` the emitted output in
reverse, `reps` the appended repairs in order.  Raises `RelaxedJSONError` on
an unclosed multi-line comment. -/
def stripCommentsGo (text : List Char) :
    Nat → Nat → List Char → Bool → Bool → Option Char → List Char →
    List Repair → List Repair × Except PyErr (List Char)
  | 0, _, _, _, _, _, accRev, reps => (reps, .ok accRev.reverse)
  | fuel + 1, i, rest, inString, escNext, prev, accRev, reps =>
    match rest with
    | [] => (reps, .ok accRev.reverse)
    | c :: rs =>
      if escNext then
        stripCommentsGo text fuel (i + 1) rs inString false (some c)
          (c :: accRev) reps
      else if c = dquote then
        stripCommentsGo text fuel (i + 1) rs (!inString) false (some c)
          (c :: accRev) reps
      else if c == bslash && inString then
        stripCommentsGo text fuel (i + 1) rs inString true (some c)
          (c :: accRev) reps
      else if !inString && c == '/' && rs.head? == some '/' then
        if prev = some ':' then
          stripCommentsGo text fuel (i + 1) rs inString false (some c)
            (c :: accRev) reps
        else
          match (c :: rs).findIdx? (fun x => x = '\n') with
          | none =>
            let comment := c :: rs
            let rep := createRepair .SINGLE_LINE_COMMENT text i
              (pyRstripNl comment)
            (reps ++ [rep], .ok accRev.reverse)
          | some k =>
            let comment := (c :: rs).take (k + 1)
            let rep := createRepair .SINGLE_LINE_COMMENT text i
              (pyRstripNl comment)
            stripCommentsGo text fuel (i + (k + 1)) ((c :: rs).drop (k + 1))
              inString false comment.getLast? accRev (reps ++ [rep])
      else if !inString && c == '#' then
        match (c :: rs).findIdx? (fun x => x = '\n') with
        | none =>
          let comment := c :: rs
          let rep := createRepair .HASH_COMMENT text i (pyRstripNl comment)
          (reps ++ [rep], .ok accRev.reverse)
        | some k =>
          let comment := (c :: rs).take (k + 1)
          let rep := createRepair .HASH_COMMENT text i (pyRstripNl comment)
          stripCommentsGo text fuel (i + (k + 1)) ((c :: rs).drop (k + 1))
            inString false comment.getLast? accRev (reps ++ [rep])
      else if !inString && c == '/' && rs.head? == some '*' then
        match findSub "*/".toList (rs.drop 1) with
        | none =>
          (reps, .error (.relaxedJSON
            ("Unclosed multi-line comment at position ".toList ++ natToChars i)))
        | some m =>
          let comment := (c :: rs).take (m + 4)
          let rep := createRepair .MULTI_LINE_COMMENT text i comment
          stripCommentsGo text fuel (i + (m + 4)) ((c :: rs).drop (m + 4))
            inString false comment.getLast? (' ' :: accRev) (reps ++ [rep])
      else
        stripCommentsGo text fuel (i + 1) rs inString false (some c)
          (c :: accRev) reps

/-- `_strip_comments` from parser.py: strip single-line, hash, and multi-line
comments outside strings; the repairs appended before a raise are kept. -/
def stripComments (text : List Char) :
    List Repair × Except PyErr (List Char) :=
  stripCommentsGo text (text.length + 1) 0 text false false none [] []

/-- The whitespace set `" \t\n\r"` used by the lookahead and lookback loops
in the normalizers. -/
def isWs4 (c : Char) : Bool :=
  c = ' ' || c = '\t' || c = '\n' || c = '\r'

/-- `ALL_QUOTE_MAPPINGS` from normalizers.py: the 18-entry smart-quote table
(9 double-quote variants, 9 single-quote variants). -/
def smartQuoteMap (c : Char) : Option Char :=
  if c = Char.ofNat 0x201c || c = Char.ofNat 0x201d || c = Char.ofNat 0x201e
      || c = Char.ofNat 0x201f || c = Char.ofNat 0xab || c = Char.ofNat 0xbb
      || c = Char.ofNat 0x2033 || c = Char.ofNat 0x301d
      || c = Char.ofNat 0x301e then
    some dquote
  else if c = Char.ofNat 0x2018 || c = Char.ofNat 0x2019
      || c = Char.ofNat 0x201a || c = Char.ofNat 0x201b
      || c = Char.ofNat 0x2039 || c = Char.ofNat 0x203a
      || c = Char.ofNat 0x2032 || c = Char.ofNat 0x60
      || c = Char.ofNat 0xb4 then
    some squote
  else
    none

/-- Loop of `normalize_quotes` (normalizers.py lines 57-81): character-wise
table lookup over the whole text, including string contents. -/
def normalizeQuotesGo (text : List Char) :
    Nat → Nat → List Char → List Char → List Repair →
    List Char × List Repair
  | 0, _, _, accRev, reps => (accRev.reverse, reps)
  | fuel + 1, i, rest, accRev, reps =>
    match rest with
    | [] => (accRev.reverse, reps)
    | c :: rs =>
      match smartQuoteMap c with
      | some r =>
        normalizeQuotesGo text fuel (i + 1) rs (r :: accRev)
          (reps ++ [createRepair .SMART_QUOTE text i [c] [r]])
      | none => normalizeQuotesGo text fuel (i + 1) rs (c :: accRev) reps

/-- `normalize_quotes` from normalizers.py. -/
def normalizeQuotes (text : List Char) : List Char × List Repair :=
  normalizeQuotesGo text (text.length + 1) 0 text [] []

/-- Loop of `_remove_trailing_commas` (parser.py lines 190-246): a comma
outside strings whose next non-whitespace character is `]` or the closing
brace is dropped with a `TRAILING_COMMA` repair. -/
def removeTrailingCommasGo (text : List Char) :
    Nat → Nat → List Char → Bool → Bool → List Char → List Repair →
    List Char × List Repair
  | 0, _, _, _, _, accRev, reps => (accRev.reverse, reps)
  | fuel + 1, i, rest, inString, escNext, accRev, reps =>
    match rest with
    | [] => (accRev.reverse, reps)
    | c :: rs =>
      if escNext then
        removeTrailingCommasGo text fuel (i + 1) rs inString false
          (c :: accRev) reps
      else if c = dquote then
        removeTrailingCommasGo text fuel (i + 1) rs (!inString) false
          (c :: accRev) reps
      else if c == bslash && inString then
        removeTrailingCommasGo text fuel (i + 1) rs inString true
          (c :: accRev) reps
      else if !inString && c == ',' then
        match (rs.dropWhile isWs4).head? with
        | some b =>
          if b == ']' || b == rbrace then
            removeTrailingCommasGo text fuel (i + 1) rs inString false accRev
              (reps ++ [createRepair .TRAILING_COMMA text i [',']])
          else
            removeTrailingCommasGo text fuel (i + 1) rs inString false
              (c :: accRev) reps
        | none =>
          removeTrailingCommasGo text fuel (i + 1) rs inString false
            (c :: accRev) reps
      else
        removeTrailingCommasGo text fuel (i + 1) rs inString false
          (c :: accRev) reps

/-- `_remove_trailing_commas` from parser.py. -/
def removeTrailingCommas (text : List Char) : List Char × List Repair :=
  removeTrailingCommasGo text (text.length + 1) 0 text false false [] []

/-- Bracket-scan loop of `_auto_close_brackets` (parser.py lines 274-307).
The stack is kept with its top at the head. -/
def autoCloseScan :
    Nat → List Char → Bool → Bool → List Char → List Char
  | 0, _, _, _, stack => stack
  | fuel + 1, rest, inString, escNext, stack =>
    match rest with
    | [] => stack
    | c :: rs =>
      if escNext then
        autoCloseScan fuel rs inString false stack
      else if c == bslash && inString then
        autoCloseScan fuel rs inString true stack
      else if c = dquote then
        autoCloseScan fuel rs (!inString) false stack
      else if !inString then
        if c = lbrace then
          autoCloseScan fuel rs inString false (lbrace :: stack)
        else if c = '[' then
          autoCloseScan fuel rs inString false ('[' :: stack)
        else if c = rbrace then
          match stack with
          | t :: ts => if t = lbrace then autoCloseScan fuel rs inString false ts
                       else autoCloseScan fuel rs inString false stack
          | [] => autoCloseScan fuel rs inString false stack
        else if c = ']' then
          match stack with
          | t :: ts => if t = '[' then autoCloseScan fuel rs inString false ts
                       else autoCloseScan fuel rs inString false stack
          | [] => autoCloseScan fuel rs inString false stack
        else
          autoCloseScan fuel rs inString false stack
      else
        autoCloseScan fuel rs inString false stack

/-- `_auto_close_brackets` from parser.py: append a matching closer for each
unmatched opener, with one `MISSING_BRACKET` repair per appended character,
all at `position = len(text)`. -/
def autoCloseBrackets (text : List Char) : List Char × List Repair :=
  if text = [] then (text, [])
  else
    let stack := autoCloseScan (text.length + 1) text false false []
    if stack = [] then (text, [])
    else
      let closers := stack.map (fun b => if b = lbrace then rbrace else ']')
      let reps := closers.map
        (fun cl => createRepair .MISSING_BRACKET text text.length [] [cl])
      (text ++ closers, reps)

/-- Python `s.replace(pat, rep)`: leftmost, non-overlapping replacement of
every occurrence. -/
def replaceSubGo (pat rep : List Char) : Nat → List Char → List Char
  | 0, l => l
  | fuel + 1, l =>
    match l with
    | [] => []
    | c :: rest =>
      if pat.isPrefixOf l then rep ++ replaceSubGo pat rep fuel (l.drop pat.length)
      else c :: replaceSubGo pat rep fuel rest

/-- Python `s.replace(pat, rep)` wrapper with sufficient fuel. -/
def replaceSub (pat rep l : List Char) : List Char :=
  replaceSubGo pat rep (l.length + 1) l

/-- Inner scan of `convert_single_quote_strings` (normalizers.py lines
158-207): walk from just after an opening single quote looking for the
matching close, translating escapes.  Returns the collected content and the
number of characters consumed up to and including the closing quote, or
`none` when no closing quote exists. -/
def singleQuoteInner :
    Nat → List Char → Bool → List Char → Nat → Option (List Char × Nat)
  | 0, _, _, _, _ => none
  | fuel + 1, rest, escIn, contentRev, n =>
    match rest with
    | [] => none
    | c :: rs =>
      if escIn then
        if c = squote then
          singleQuoteInner fuel rs false (squote :: contentRev) (n + 1)
        else if c = dquote then
          singleQuoteInner fuel rs false (dquote :: bslash :: contentRev) (n + 1)
        else
          singleQuoteInner fuel rs false (c :: bslash :: contentRev) (n + 1)
      else if c == bslash then
        singleQuoteInner fuel rs true contentRev (n + 1)
      else if c == squote then
        some (contentRev.reverse, n + 1)
      else
        singleQuoteInner fuel rs false (c :: contentRev) (n + 1)

/-- Loop of `convert_single_quote_strings` (normalizers.py lines 117-216).
Note that the backslash branch of the outer loop is not conditioned on being
inside a double-quoted string. -/
def convertSingleQuoteStringsGo (text : List Char) :
    Nat → Nat → List Char → Bool → Bool → List Char → List Repair →
    List Char × List Repair
  | 0, _, _, _, _, accRev, reps => (accRev.reverse, reps)
  | fuel + 1, i, rest, inDouble, escNext, accRev, reps =>
    match rest with
    | [] => (accRev.reverse, reps)
    | c :: rs =>
      if escNext then
        convertSingleQuoteStringsGo text fuel (i + 1) rs inDouble false
          (c :: accRev) reps
      else if c == bslash then
        convertSingleQuoteStringsGo text fuel (i + 1) rs inDouble true
          (c :: accRev) reps
      else if c = dquote then
        convertSingleQuoteStringsGo text fuel (i + 1) rs (!inDouble) false
          (c :: accRev) reps
      else if c == squote && !inDouble then
        match singleQuoteInner (rs.length + 1) rs false [] 0 with
        | some (content, consumed) =>
          let original := (c :: rs).take (consumed + 1)
          let converted := replaceSub [bslash, bslash, dquote] [bslash, dquote]
            (replaceSub [dquote] [bslash, dquote] content)
          let replacement := dquote :: (converted ++ [dquote])
          convertSingleQuoteStringsGo text fuel (i + 1 + consumed)
            (rs.drop consumed) inDouble false (replacement.reverse ++ accRev)
            (reps ++ [createRepair .SINGLE_QUOTE_STRING text i original
              replacement])
        | none =>
          convertSingleQuoteStringsGo text fuel (i + 1) rs inDouble false
            (c :: accRev) reps
      else
        convertSingleQuoteStringsGo text fuel (i + 1) rs inDouble false
          (c :: accRev) reps

/-- `convert_single_quote_strings` from normalizers.py. -/
def convertSingleQuoteStrings (text : List Char) : List Char × List Repair :=
  convertSingleQuoteStringsGo text (text.length + 1) 0 text false false [] []

/-- Identifier start per normalizers.py line 279: alphabetic, underscore, or
dollar. -/
def isIdentStart (c : Char) : Bool :=
  c.isAlpha || c = '_' || c = '$'

/-- Identifier continuation per normalizers.py line 284: alphanumeric,
underscore, or dollar. -/
def isIdentChar (c : Char) : Bool :=
  c.isAlphanum || c = '_' || c = '$'

/-- Loop of `quote_unquoted_keys` (normalizers.py lines 242-321): after an
opening brace or a comma, an identifier followed (over whitespace) by a colon
is wrapped in double quotes. -/
def quoteUnquotedKeysGo (text : List Char) :
    Nat → Nat → List Char → Bool → Bool → List Char → List Repair →
    List Char × List Repair
  | 0, _, _, _, _, accRev, reps => (accRev.reverse, reps)
  | fuel + 1, i, rest, inString, escNext, accRev, reps =>
    match rest with
    | [] => (accRev.reverse, reps)
    | c :: rs =>
      if escNext then
        quoteUnquotedKeysGo text fuel (i + 1) rs inString false (c :: accRev)
          reps
      else if c == bslash && inString then
        quoteUnquotedKeysGo text fuel (i + 1) rs inString true (c :: accRev)
          reps
      else if c = dquote then
        quoteUnquotedKeysGo text fuel (i + 1) rs (!inString) false
          (c :: accRev) reps
      else if !inString && (c == lbrace || c == ',') then
        let ws := rs.takeWhile isWs4
        let rest2 := rs.drop ws.length
        let i2 := i + 1 + ws.length
        match rest2 with
        | [] => ((ws.reverse ++ c :: accRev).reverse, reps)
        | c2 :: _ =>
          if isIdentStart c2 then
            let ident := rest2.takeWhile isIdentChar
            let rest3 := rest2.drop ident.length
            let ws2 := rest3.takeWhile isWs4
            let rest4 := rest3.drop ws2.length
            if rest4.head? == some ':' then
              let rep := createRepair .UNQUOTED_KEY text i2 ident
                (dquote :: (ident ++ [dquote]))
              quoteUnquotedKeysGo text fuel (i2 + ident.length + ws2.length)
                rest4 inString false
                (ws2.reverse ++ dquote :: ident.reverse ++ dquote ::
                  ws.reverse ++ c :: accRev)
                (reps ++ [rep])
            else
              quoteUnquotedKeysGo text fuel i2 rest2 inString false
                (ws.reverse ++ c :: accRev) reps
          else
            quoteUnquotedKeysGo text fuel i2 rest2 inString false
              (ws.reverse ++ c :: accRev) reps
      else
        quoteUnquotedKeysGo text fuel (i + 1) rs inString false (c :: accRev)
          reps

/-- `quote_unquoted_keys` from normalizers.py. -/
def quoteUnquotedKeys (text : List Char) : List Char × List Repair :=
  quoteUnquotedKeysGo text (text.length + 1) 0 text false false [] []

/-- Word-boundary check after a literal: position past the end of the text,
or a non-alphanumeric character (normalizers.py lines 386-389). -/
def boundaryOkAfter (l : List Char) : Bool :=
  match l.head? with
  | none => true
  | some a => !a.isAlphanum

/-- Loop of `convert_python_literals` (normalizers.py lines 352-413): outside
strings, `True`, `False`, `None` with both word boundaries satisfied become
`true`, `false`, `null`.  `prev` is the character before the current index,
used for the left word boundary. -/
def convertPythonLiteralsGo (text : List Char) :
    Nat → Nat → List Char → Bool → Bool → Option Char → List Char →
    List Repair → List Char × List Repair
  | 0, _, _, _, _, _, accRev, reps => (accRev.reverse, reps)
  | fuel + 1, i, rest, inString, escNext, prev, accRev, reps =>
    match rest with
    | [] => (accRev.reverse, reps)
    | c :: rs =>
      if escNext then
        convertPythonLiteralsGo text fuel (i + 1) rs inString false (some c)
          (c :: accRev) reps
      else if c == bslash && inString then
        convertPythonLiteralsGo text fuel (i + 1) rs inString true (some c)
          (c :: accRev) reps
      else if c = dquote then
        convertPythonLiteralsGo text fuel (i + 1) rs (!inString) false (some c)
          (c :: accRev) reps
      else if !inString then
        let beforeOk := match prev with
          | none => true
          | some p => !p.isAlphanum
        if ("True".toList.isPrefixOf (c :: rs)) && beforeOk
            && boundaryOkAfter ((c :: rs).drop 4) then
          convertPythonLiteralsGo text fuel (i + 4) ((c :: rs).drop 4) inString
            false (some 'e') ("true".toList.reverse ++ accRev)
            (reps ++ [createRepair .PYTHON_LITERAL text i "True".toList
              "true".toList])
        else if ("False".toList.isPrefixOf (c :: rs)) && beforeOk
            && boundaryOkAfter ((c :: rs).drop 5) then
          convertPythonLiteralsGo text fuel (i + 5) ((c :: rs).drop 5) inString
            false (some 'e') ("false".toList.reverse ++ accRev)
            (reps ++ [createRepair .PYTHON_LITERAL text i "False".toList
              "false".toList])
        else if ("None".toList.isPrefixOf (c :: rs)) && beforeOk
            && boundaryOkAfter ((c :: rs).drop 4) then
          convertPythonLiteralsGo text fuel (i + 4) ((c :: rs).drop 4) inString
            false (some 'e') ("null".toList.reverse ++ accRev)
            (reps ++ [createRepair .PYTHON_LITERAL text i "None".toList
              "null".toList])
        else
          convertPythonLiteralsGo text fuel (i + 1) rs inString false (some c)
            (c :: accRev) reps
      else
        convertPythonLiteralsGo text fuel (i + 1) rs inString false (some c)
          (c :: accRev) reps

/-- `convert_python_literals` from normalizers.py. -/
def convertPythonLiterals (text : List Char) : List Char × List Repair :=
  convertPythonLiteralsGo text (text.length + 1) 0 text false false none [] []

/-- Loop of `escape_newlines_in_strings` (normalizers.py lines 439-484):
literal LF and CR inside strings become the two-character escapes. -/
def escapeNewlinesInStringsGo (text : List Char) :
    Nat → Nat → List Char → Bool → Bool → List Char → List Repair →
    List Char × List Repair
  | 0, _, _, _, _, accRev, reps => (accRev.reverse, reps)
  | fuel + 1, i, rest, inString, escNext, accRev, reps =>
    match rest with
    | [] => (accRev.reverse, reps)
    | c :: rs =>
      if escNext then
        escapeNewlinesInStringsGo text fuel (i + 1) rs inString false
          (c :: accRev) reps
      else if c == bslash && inString then
        escapeNewlinesInStringsGo text fuel (i + 1) rs inString true
          (c :: accRev) reps
      else if c = dquote then
        escapeNewlinesInStringsGo text fuel (i + 1) rs (!inString) false
          (c :: accRev) reps
      else if inString && (c == '\n' || c == '\r') then
        let repl := if c = '\n' then [bslash, 'n'] else [bslash, 'r']
        let orig := if c = '\n' then [bslash, 'n'] else [bslash, 'r']
        escapeNewlinesInStringsGo text fuel (i + 1) rs inString false
          (repl.reverse ++ accRev)
          (reps ++ [createRepair .UNESCAPED_NEWLINE text i orig repl])
      else
        escapeNewlinesInStringsGo text fuel (i + 1) rs inString false
          (c :: accRev) reps

/-- `escape_newlines_in_strings` from normalizers.py.  The `original` field
is `repr(char)[1:-1]`, i.e. the two characters backslash-n or backslash-r. -/
def escapeNewlinesInStrings (text : List Char) : List Char × List Repair :=
  escapeNewlinesInStringsGo text (text.length + 1) 0 text false false [] []

/-- Loop of `remove_ellipsis_markers` (normalizers.py lines 510-600): outside
strings, `...` or the Unicode ellipsis is removed together with a preceding
comma (plus intervening whitespace) and the whitespace that follows it. -/
def removeEllipsisMarkersGo (text : List Char) :
    Nat → Nat → List Char → Bool → Bool → List Char → List Repair →
    List Char × List Repair
  | 0, _, _, _, _, accRev, reps => (accRev.reverse, reps)
  | fuel + 1, i, rest, inString, escNext, accRev, reps =>
    match rest with
    | [] => (accRev.reverse, reps)
    | c :: rs =>
      if escNext then
        removeEllipsisMarkersGo text fuel (i + 1) rs inString false
          (c :: accRev) reps
      else if c == bslash && inString then
        removeEllipsisMarkersGo text fuel (i + 1) rs inString true
          (c :: accRev) reps
      else if c = dquote then
        removeEllipsisMarkersGo text fuel (i + 1) rs (!inString) false
          (c :: accRev) reps
      else if !inString && c == '.' && rs.take 2 == ['.', '.'] then
        let accWs := accRev.takeWhile isWs4
        let hasComma := (accRev.drop accWs.length).head? == some ','
        let accRev2 := if hasComma then accRev.drop (accWs.length + 1) else accRev
        let removed := if hasComma then ", ...".toList else "...".toList
        let wsAfter := (rs.drop 2).takeWhile isWs4
        removeEllipsisMarkersGo text fuel (i + 3 + wsAfter.length)
          ((rs.drop 2).drop wsAfter.length) inString false accRev2
          (reps ++ [createRepair .TRUNCATION_MARKER text i removed []])
      else if !inString && c == Char.ofNat 0x2026 then
        let accWs := accRev.takeWhile isWs4
        let hasComma := (accRev.drop accWs.length).head? == some ','
        let accRev2 := if hasComma then accRev.drop (accWs.length + 1) else accRev
        let removed := if hasComma then (", ".toList ++ [Char.ofNat 0x2026])
          else [Char.ofNat 0x2026]
        let wsAfter := rs.takeWhile isWs4
        removeEllipsisMarkersGo text fuel (i + 1 + wsAfter.length)
          (rs.drop wsAfter.length) inString false accRev2
          (reps ++ [createRepair .TRUNCATION_MARKER text i removed []])
      else
        removeEllipsisMarkersGo text fuel (i + 1) rs inString false
          (c :: accRev) reps

/-- `remove_ellipsis_markers` from normalizers.py. -/
def removeEllipsisMarkers (text : List Char) : List Char × List Repair :=
  removeEllipsisMarkersGo text (text.length + 1) 0 text false false [] []

/-- ASCII whitespace per Python `str.strip()` and the regex class for
whitespace: space, tab, LF, CR, VT, FF.  (The Unicode members of these
classes are irrelevant here.) -/
def isPySpace (c : Char) : Bool :=
  c = ' ' || c = '\t' || c = '\n' || c = '\r' || c = Char.ofNat 11
    || c = Char.ofNat 12

/-- Python `text.strip()`. -/
def pyStrip (l : List Char) : List Char :=
  ((l.dropWhile isPySpace).reverse.dropWhile isPySpace).reverse

/-- Case-insensitive fixed-word prefix test (the language tags of the fence
regex, compiled with `re.IGNORECASE`). -/
def tagPrefixCI (tag : List Char) (l : List Char) : Bool :=
  (l.take tag.length).map Char.toLower == tag

/-- Match `whitespace-star newline` with the greedy backtracking of the
regex: consume whitespace up to and including the last newline of the
maximal whitespace run.  Returns the number of characters consumed. -/
def wsNlConsume (l : List Char) : Option Nat :=
  let w := l.takeWhile isPySpace
  match w.reverse.findIdx? (fun c => c = '\n') with
  | none => none
  | some rIdx => some (w.length - rIdx)

/-- One backtracking position of the opening-fence tail
`whitespace-star, optional language tag, whitespace-star, newline`:
alternatives are tried in the order json, javascript, js, no tag. -/
def fenceTailAt (rest1 : List Char) : Option Nat :=
  (if tagPrefixCI "json".toList rest1 then
    (wsNlConsume (rest1.drop 4)).map (· + 4) else none)
  <|> (if tagPrefixCI "javascript".toList rest1 then
    (wsNlConsume (rest1.drop 10)).map (· + 10) else none)
  <|> (if tagPrefixCI "js".toList rest1 then
    (wsNlConsume (rest1.drop 2)).map (· + 2) else none)
  <|> wsNlConsume rest1

/-- Backtracking over the length of the whitespace run consumed by the
first `whitespace-star` of the opening-fence tail, longest first. -/
def fenceTailGo (after : List Char) : Nat → Option Nat
  | 0 => fenceTailAt after
  | k + 1 =>
    match (fenceTailAt (after.drop (k + 1))).map (fun m => k + 1 + m) with
    | some r => some r
    | none => fenceTailGo after k

/-- Tail of the opening-fence regex after the three backticks. -/
def fenceTail (after : List Char) : Option Nat :=
  fenceTailGo after (after.takeWhile isPySpace).length

/-- The opening-fence regex of `remove_markdown_fences` (normalizers.py
lines 632-635), anchored at the start: optional whitespace, three backticks,
optional language tag, a newline.  Returns `match.end()`. -/
def matchFenceStart (text : List Char) : Option Nat :=
  let ws0 := text.takeWhile isPySpace
  if ("```".toList).isPrefixOf (text.drop ws0.length) then
    (fenceTail (text.drop (ws0.length + 3))).map
      (fun m => ws0.length + 3 + m)
  else none

/-- Whether the closing-fence regex `optional newline, whitespace-star,
three backticks, whitespace-star, end-of-line` matches at the start of
`l` (MULTILINE, so end-of-line is a newline or the end of the text). -/
def endFenceMatchesAt (l : List Char) : Bool :=
  let w := l.takeWhile isPySpace
  let l1 := l.drop w.length
  if ("```".toList).isPrefixOf l1 then
    let l2 := l1.drop 3
    let w2 := l2.takeWhile isPySpace
    (l2.drop w2.length).isEmpty || w2.contains '\n'
  else false

/-- `re.search` for the closing-fence regex from position `s`: the start of
the leftmost match. -/
def findEndFence : Nat → List Char → Nat → Option Nat
  | 0, _, _ => none
  | fuel + 1, l, s =>
    if endFenceMatchesAt l then some s
    else
      match l with
      | [] => none
      | _ :: rs => findEndFence fuel rs (s + 1)

/-- `remove_markdown_fences` from normalizers.py (lines 608-666).  When the
opening fence matches, the fenced (or remaining) content is stripped and a
`MARKDOWN_FENCE_REMOVED` repair is emitted at position 0. -/
def removeMarkdownFences (text : List Char) : List Char × List Repair :=
  if text = [] then (text, [])
  else
    match matchFenceStart text with
    | none => (text, [])
    | some startPos =>
      let content :=
        match findEndFence (text.length + 1) (text.drop startPos) startPos with
        | some endStart => (text.drop startPos).take (endStart - startPos)
        | none => text.drop startPos
      let extracted := pyStrip content
      (extracted, [createRepair .MARKDOWN_FENCE_REMOVED text 0 text extracted])

/-- Bracket walk of `extract_json_from_text` (normalizers.py lines 719-749):
starting at the first bracket, track nesting of the one opening/closing pair
while respecting strings, and return the exclusive end index of the region. -/
def extractWalk (opening closing : Char) :
    Nat → List Char → Bool → Bool → Nat → Nat → Option Nat
  | 0, _, _, _, _, _ => none
  | fuel + 1, rest, inString, escNext, count, idx =>
    match rest with
    | [] => none
    | c :: rs =>
      if escNext then
        extractWalk opening closing fuel rs inString false count (idx + 1)
      else if c == bslash && inString then
        extractWalk opening closing fuel rs inString true count (idx + 1)
      else if c = dquote then
        extractWalk opening closing fuel rs (!inString) false count (idx + 1)
      else if inString then
        extractWalk opening closing fuel rs inString false count (idx + 1)
      else if c = opening then
        extractWalk opening closing fuel rs inString false (count + 1) (idx + 1)
      else if c = closing then
        if count = 1 then some (idx + 1)
        else extractWalk opening closing fuel rs inString false (count - 1) (idx + 1)
      else
        extractWalk opening closing fuel rs inString false count (idx + 1)

/-- Comment-marker test used by `extract_json_from_text`. -/
def startsWithCommentMarker (l : List Char) : Bool :=
  ("//".toList).isPrefixOf l || ("#".toList).isPrefixOf l
    || ("/*".toList).isPrefixOf l

/-- `extract_json_from_text` from normalizers.py (lines 669-785).  Note
that the function strips the input before all other processing and that the
search for the first bracket is not string-aware. -/
def extractJsonFromText (text : List Char) : List Char × List Repair :=
  if text = [] then (text, [])
  else
    let originalText := text
    let t := pyStrip text
    if startsWithCommentMarker t then (t, [])
    else
      match t.findIdx? (fun c => c = lbrace || c = '[') with
      | none => (t, [])
      | some jsonStart =>
        let afterStart := t.drop jsonStart
        let opening := afterStart.headD ' '
        let closing := if opening = lbrace then rbrace else ']'
        let jsonEnd? := extractWalk opening closing (afterStart.length + 1)
          afterStart false false 0 jsonStart
        let step : List Char × Bool :=
          match jsonEnd? with
          | none => (afterStart, false)
          | some jsonEnd =>
            let postamble := pyStrip (t.drop jsonEnd)
            if startsWithCommentMarker postamble then (afterStart, false)
            else (afterStart.take (jsonEnd - jsonStart), !postamble.isEmpty)
        let extracted := step.1
        let hasPostamble := step.2
        let hasPreamble := decide (0 < jsonStart)
        if hasPreamble || hasPostamble then
          (extracted,
            [createRepair .JSON_EXTRACTED originalText 0 (t.take jsonStart) []])
        else (extracted, [])

/-- Value-start test of `fix_missing_colons` (normalizers.py lines 869-878):
string, object, array, digit, minus sign, or a true/false/null keyword. -/
def isValueStartColon (a : Char) (after : List Char) : Bool :=
  a = dquote || a = lbrace || a = '[' || a.isDigit || a = '-'
    || ("true".toList).isPrefixOf after || ("false".toList).isPrefixOf after
    || ("null".toList).isPrefixOf after

/-- The four-character window test of normalizers.py line 917: the up to
four output characters ending at the lookback position, checked with
`endswith` against the three keywords (a five-character keyword can never
match a four-character window, which we keep faithfully). -/
def endsWithKeyword (w : List Char) : Bool :=
  ("true".toList).isSuffixOf w || ("false".toList).isSuffixOf w
    || ("null".toList).isSuffixOf w

/-- The object-context scan of normalizers.py lines 919-931: fold over the
output emitted so far, in order; `inObj` remembers whether the most recent
opener was a brace, `depth` is the net bracket depth (an integer, since
closers are counted without matching). -/
def inObjDepth (l : List Char) : Bool × Int :=
  l.foldl
    (fun (st : Bool × Int) c =>
      if c = lbrace then (true, st.2 + 1)
      else if c = '[' then (false, st.2 + 1)
      else if c = rbrace then (st.1, st.2 - 1)
      else if c = ']' then (st.1, st.2 - 1)
      else st)
    (false, 0)

/-- Loop of `fix_missing_colons` (normalizers.py lines 823-952). -/
def fixMissingColonsGo (text : List Char) :
    Nat → Nat → List Char → Bool → Bool → List Char → List Repair →
    List Char × List Repair
  | 0, _, _, _, _, accRev, reps => (accRev.reverse, reps)
  | fuel + 1, i, rest, inString, escNext, accRev, reps =>
    match rest with
    | [] => (accRev.reverse, reps)
    | c :: rs =>
      if escNext then
        fixMissingColonsGo text fuel (i + 1) rs inString false (c :: accRev)
          reps
      else if c == bslash && inString then
        fixMissingColonsGo text fuel (i + 1) rs inString true (c :: accRev)
          reps
      else if c = dquote then
        if !inString then
          fixMissingColonsGo text fuel (i + 1) rs true false (dquote :: accRev)
            reps
        else
          let acc1 := dquote :: accRev
          let i1 := i + 1
          let ws := rs.takeWhile isWs4
          let after := rs.drop ws.length
          match after with
          | [] => fixMissingColonsGo text fuel i1 rs false false acc1 reps
          | a :: _ =>
            if a = ':' then
              fixMissingColonsGo text fuel i1 rs false false acc1 reps
            else if isValueStartColon a after then
              let acc3 := accRev.dropWhile (fun x => x ≠ dquote)
              match acc3 with
              | _ :: acc4 =>
                let acc5 := acc4.dropWhile isWs4
                if acc5.head? == some lbrace || acc5.head? == some ',' then
                  fixMissingColonsGo text fuel (i1 + ws.length) after false
                    false (ws.reverse ++ ':' :: acc1)
                    (reps ++ [createRepair .MISSING_COLON text i1 [] [':']])
                else if acc5 ≠ []
                    && ((acc5.headD ' ').isDigit || acc5.head? == some rbrace
                      || acc5.head? == some ']' || acc5.head? == some dquote
                      || endsWithKeyword (acc5.take 4).reverse) then
                  let od := inObjDepth acc1.reverse
                  if od.1 && 0 < od.2 then
                    fixMissingColonsGo text fuel (i1 + ws.length) after false
                      false (ws.reverse ++ ':' :: acc1)
                      (reps ++ [createRepair .MISSING_COLON text i1 [] [':']])
                  else
                    fixMissingColonsGo text fuel i1 rs false false acc1 reps
                else
                  fixMissingColonsGo text fuel i1 rs false false acc1 reps
              | [] =>
                fixMissingColonsGo text fuel i1 rs false false acc1 reps
            else
              fixMissingColonsGo text fuel i1 rs false false acc1 reps
      else
        fixMissingColonsGo text fuel (i + 1) rs inString false (c :: accRev)
          reps

/-- `fix_missing_colons` from normalizers.py. -/
def fixMissingColons (text : List Char) : List Char × List Repair :=
  fixMissingColonsGo text (text.length + 1) 0 text false false [] []

/-- Number continuation characters of `fix_missing_commas` (normalizers.py
line 1099). -/
def isNumCont (c : Char) : Bool :=
  c.isDigit || c = '.' || c = 'e' || c = 'E' || c = '+' || c = '-'

/-- Length of the number token consumed by `fix_missing_commas` starting at
`c :: rs`: an optional leading minus, then number-continuation characters. -/
def numLen (c : Char) (rs : List Char) : Nat :=
  let signLen : Nat := if c = '-' then 1 else 0
  signLen + (((c :: rs).drop signLen).takeWhile isNumCont).length

/-- Result of one iteration of the `fix_missing_commas` loop. -/
structure CommaStep where
  consumed : Nat
  emitted : List Char
  inString : Bool
  escNext : Bool
  justSaw : Bool
  stack : List Char
  delta : List Repair

/-- Emission of a value token by `fix_missing_commas`: when `insert` is set
(a value was just seen and the bracket stack is non-empty) a comma and a
space are emitted first and a `MISSING_COMMA` repair is appended. -/
def commaEmit (text : List Char) (i : Nat) (insert : Bool) (consumed : Nat)
    (val : List Char) (inString escNext justSaw : Bool)
    (stack : List Char) : CommaStep :=
  if insert then
    ⟨consumed, ',' :: ' ' :: val, inString, escNext, justSaw, stack,
      [createRepair .MISSING_COMMA text i [] [',']]⟩
  else ⟨consumed, val, inString, escNext, justSaw, stack, []⟩

/-- The number, keyword and default branches of the `fix_missing_commas`
loop body (normalizers.py lines 1079-1128). -/
def fixMissingCommasValueStep (text : List Char) (i : Nat) (c : Char)
    (rs : List Char) (inString justSaw : Bool) (stack : List Char) :
    CommaStep :=
  if c.isDigit || c = '-' then
    commaEmit text i (justSaw && stack ≠ []) (numLen c rs)
      ((c :: rs).take (numLen c rs)) inString false true stack
  else if ("true".toList).isPrefixOf (c :: rs) then
    commaEmit text i (justSaw && stack ≠ []) 4 "true".toList inString false
      true stack
  else if ("false".toList).isPrefixOf (c :: rs) then
    commaEmit text i (justSaw && stack ≠ []) 5 "false".toList inString false
      true stack
  else if ("null".toList).isPrefixOf (c :: rs) then
    commaEmit text i (justSaw && stack ≠ []) 4 "null".toList inString false
      true stack
  else ⟨1, [c], inString, false, justSaw, stack, []⟩

/-- The structural-character branches of the `fix_missing_commas` loop body
(normalizers.py lines 1032-1077): brackets, comma, colon, whitespace.  On a
closing bracket the stack is popped when non-empty, which is `List.tail`. -/
def fixMissingCommasStructStep (text : List Char) (i : Nat) (c : Char)
    (rs : List Char) (inString justSaw : Bool) (stack : List Char) :
    CommaStep :=
  if c == lbrace || c == '[' then
    commaEmit text i (justSaw && stack ≠ []) 1 [c] inString false false
      (c :: stack)
  else if c == rbrace || c == ']' then
    ⟨1, [c], inString, false, true, stack.tail, []⟩
  else if c = ',' then ⟨1, [c], inString, false, false, stack, []⟩
  else if c = ':' then ⟨1, [c], inString, false, false, stack, []⟩
  else if isWs4 c then ⟨1, [c], inString, false, justSaw, stack, []⟩
  else fixMissingCommasValueStep text i c rs inString justSaw stack

/-- Loop body of `fix_missing_commas` (normalizers.py lines 983-1128):
escapes, string boundaries, then the structural and value branches. -/
def fixMissingCommasStep (text : List Char) (i : Nat) (c : Char)
    (rs : List Char) (inString escNext justSaw : Bool) (stack : List Char) :
    CommaStep :=
  if escNext then ⟨1, [c], inString, false, justSaw, stack, []⟩
  else if c == bslash && inString then
    ⟨1, [c], inString, true, justSaw, stack, []⟩
  else if c = dquote then
    if !inString then
      commaEmit text i (justSaw && stack ≠ []) 1 [dquote] true false false
        stack
    else ⟨1, [dquote], false, false, true, stack, []⟩
  else if inString then ⟨1, [c], inString, false, justSaw, stack, []⟩
  else fixMissingCommasStructStep text i c rs inString justSaw stack

/-- Loop of `fix_missing_commas`: apply `fixMissingCommasStep` until the
text is exhausted. -/
def fixMissingCommasGo (text : List Char) :
    Nat → Nat → List Char → Bool → Bool → Bool → List Char → List Char →
    List Repair → List Char × List Repair
  | 0, _, _, _, _, _, _, accRev, reps => (accRev.reverse, reps)
  | fuel + 1, i, rest, inString, escNext, justSaw, stack, accRev, reps =>
    match rest with
    | [] => (accRev.reverse, reps)
    | c :: rs =>
      let st := fixMissingCommasStep text i c rs inString escNext justSaw
        stack
      fixMissingCommasGo text fuel (i + st.consumed)
        ((c :: rs).drop st.consumed) st.inString st.escNext st.justSaw
        st.stack (st.emitted.reverse ++ accRev) (reps ++ st.delta)

/-- `fix_missing_commas` from normalizers.py. -/
def fixMissingCommas (text : List Char) : List Char × List Repair :=
  fixMissingCommasGo text (text.length + 1) 0 text false false false [] [] []

/-- Lowercase hex digit characters for the four-digit escape of
`escape_control_characters`. -/
def hexDigitLower (n : Nat) : Char :=
  if n < 10 then Char.ofNat (48 + n) else Char.ofNat (87 + n)

/-- Loop of `escape_control_characters` (normalizers.py lines 1166-1231):
inside strings, tab, CR, FF and BS become their two-character escapes and
other control characters below 0x20 (except LF and CR) become a
four-hex-digit Unicode escape. -/
def escapeControlCharactersGo (text : List Char) :
    Nat → Nat → List Char → Bool → Bool → List Char → List Repair →
    List Char × List Repair
  | 0, _, _, _, _, accRev, reps => (accRev.reverse, reps)
  | fuel + 1, i, rest, inString, escNext, accRev, reps =>
    match rest with
    | [] => (accRev.reverse, reps)
    | c :: rs =>
      if escNext then
        escapeControlCharactersGo text fuel (i + 1) rs inString false
          (c :: accRev) reps
      else if c == bslash && inString then
        escapeControlCharactersGo text fuel (i + 1) rs inString true
          (c :: accRev) reps
      else if c = dquote then
        escapeControlCharactersGo text fuel (i + 1) rs (!inString) false
          (c :: accRev) reps
      else if inString && (c == '\t' || c == '\r' || c == Char.ofNat 12
          || c == Char.ofNat 8) then
        let esc : List Char :=
          if c = '\t' then [bslash, 't']
          else if c = '\r' then [bslash, 'r']
          else if c = Char.ofNat 12 then [bslash, 'f']
          else [bslash, 'b']
        escapeControlCharactersGo text fuel (i + 1) rs inString false
          (esc.reverse ++ accRev)
          (reps ++ [createRepair .CONTROL_CHARACTER text i [c] esc])
      else if inString && c.toNat < 0x20 && c ≠ '\n' && c ≠ '\r' then
        let esc : List Char := [bslash, 'u', '0', '0',
          hexDigitLower (c.toNat / 16), hexDigitLower (c.toNat % 16)]
        escapeControlCharactersGo text fuel (i + 1) rs inString false
          (esc.reverse ++ accRev)
          (reps ++ [createRepair .CONTROL_CHARACTER text i [c] esc])
      else
        escapeControlCharactersGo text fuel (i + 1) rs inString false
          (c :: accRev) reps

/-- `escape_control_characters` from normalizers.py. -/
def escapeControlCharacters (text : List Char) : List Char × List Repair :=
  escapeControlCharactersGo text (text.length + 1) 0 text false false [] []

/-- Membership in the Python literal `0123456789abcdefABCDEF`. -/
def isPyHexDigit (c : Char) : Bool :=
  c.isDigit || ('a' ≤ c && c ≤ 'f') || ('A' ≤ c && c ≤ 'F')

/-- Loop of `fix_unescaped_backslash` (normalizers.py lines 1259-1382).
Inside a string, a backslash whose follower is not a valid JSON escape is
doubled; a valid letter escape is still doubled when the current string
content so far matches the Windows drive-letter pattern. -/
def fixUnescapedBackslashGo (text : List Char) :
    Nat → Nat → List Char → Bool → Bool → List Char → List Repair →
    List Char × List Repair
  | 0, _, _, _, _, accRev, reps => (accRev.reverse, reps)
  | fuel + 1, i, rest, inString, escNext, accRev, reps =>
    match rest with
    | [] => (accRev.reverse, reps)
    | c :: rs =>
      if c == dquote && !escNext then
        fixUnescapedBackslashGo text fuel (i + 1) rs (!inString) escNext
          (c :: accRev) reps
      else if inString then
        if escNext then
          fixUnescapedBackslashGo text fuel (i + 1) rs inString false
            (c :: accRev) reps
        else if c = bslash then
          match rs with
          | [] =>
            fixUnescapedBackslashGo text fuel (i + 1) [] inString escNext
              (bslash :: bslash :: accRev)
              (reps ++ [createRepair .UNESCAPED_BACKSLASH text i [bslash]
                [bslash, bslash]])
          | nc :: _ =>
            if nc = bslash then
              fixUnescapedBackslashGo text fuel (i + 1) rs inString true
                (c :: accRev) reps
            else if nc = dquote then
              fixUnescapedBackslashGo text fuel (i + 1) rs inString true
                (c :: accRev) reps
            else if nc = 'b' || nc = 'f' || nc = 'n' || nc = 'r' || nc = 't'
                || nc = '/' then
              let contentRevSoFar := accRev.takeWhile (fun x => x ≠ dquote)
              let foundQuote := accRev.dropWhile (fun x => x ≠ dquote) ≠ []
              let soFar := contentRevSoFar.reverse
              let isWindowsPath := foundQuote && decide (2 ≤ soFar.length)
                && (soFar.headD ' ').isAlpha && soFar.get? 1 == some ':'
              if isWindowsPath then
                fixUnescapedBackslashGo text fuel (i + 1) rs inString escNext
                  (bslash :: bslash :: accRev)
                  (reps ++ [createRepair .UNESCAPED_BACKSLASH text i [bslash]
                    [bslash, bslash]])
              else
                fixUnescapedBackslashGo text fuel (i + 1) rs inString true
                  (c :: accRev) reps
            else if nc = 'u' && decide (5 ≤ rs.length)
                && ((rs.drop 1).take 4).all isPyHexDigit then
              fixUnescapedBackslashGo text fuel (i + 1) rs inString true
                (c :: accRev) reps
            else
              fixUnescapedBackslashGo text fuel (i + 1) rs inString escNext
                (bslash :: bslash :: accRev)
                (reps ++ [createRepair .UNESCAPED_BACKSLASH text i [bslash]
                  [bslash, bslash]])
        else
          fixUnescapedBackslashGo text fuel (i + 1) rs inString escNext
            (c :: accRev) reps
      else
        fixUnescapedBackslashGo text fuel (i + 1) rs inString escNext
          (c :: accRev) reps

/-- `fix_unescaped_backslash` from normalizers.py. -/
def fixUnescapedBackslash (text : List Char) : List Char × List Repair :=
  fixUnescapedBackslashGo text (text.length + 1) 0 text false false [] []

/-- The innermost scan of `fix_unescaped_quotes` (normalizers.py lines
1552-1559): skip past the content of the string that follows, jumping over
escape pairs, and return the offset of its closing quote if one exists. -/
def scanPastStr : Nat → List Char → Nat → Option Nat
  | 0, _, _ => none
  | fuel + 1, l, pos =>
    match l with
    | [] => none
    | c :: rs =>
      if c == bslash && rs ≠ [] then scanPastStr fuel (rs.drop 1) (pos + 2)
      else if c = dquote then some pos
      else scanPastStr fuel rs (pos + 1)

/-- The lookback of `fix_unescaped_quotes` for the most recent opening
bracket in the output emitted so far (normalizers.py lines 1592-1597 and
similar): the first brace or square bracket when walking backwards. -/
def lastOpener (accRev : List Char) : Option Char :=
  accRev.find? (fun x => x = lbrace || x = '[')

/-- Result of one iteration of the `fix_unescaped_quotes` loop: the
characters emitted, the new scanner state, and the repairs appended.  Every
iteration of the source loop consumes exactly one character. -/
structure QuoteStep where
  emitted : List Char
  inString : Bool
  escNext : Bool
  delta : List Repair

/-- The decision procedure of `fix_unescaped_quotes` for a quote met inside
a string (normalizers.py lines 1440-1706): `true` means the quote closes
the string, `false` means it is an unescaped internal quote to be escaped.
`rs` is the text after the quote and `accRev` the output emitted so far,
most recent first, used by the opening-bracket lookbacks.  The dead comma
test at lines 1587-1603 (subsumed by the preceding membership test) is
omitted; it cannot fire. -/
def quoteDecideClosing (rs accRev : List Char) : Bool :=
  let after := rs.dropWhile isWs4
  match after with
  | [] => true
  | nc :: afterRest =>
    if nc = ']' || nc = rbrace then true
    else if nc = ',' then
      let afterComma := afterRest.dropWhile isWs4
      let alphaCount :=
        (afterComma.takeWhile (fun x => x ≠ dquote)).countP
          (fun x => x.isAlpha)
      let fallback := !(3 < alphaCount : Bool)
      match afterComma with
      | [] => fallback
      | ac :: acRest =>
        if ac = dquote then
          let seg := acRest.takeWhile (fun x => x ≠ dquote && x ≠ bslash)
          let afterSeg := acRest.drop seg.length
          if afterSeg.head? == some dquote then
            let afterM := (afterSeg.drop 1).dropWhile isWs4
            if afterM.head? == some ':' then true else fallback
          else fallback
        else if ac = lbrace || ac = '[' || ac.isDigit || ac = '-' then true
        else if ("true".toList).isPrefixOf afterComma
            || ("false".toList).isPrefixOf afterComma
            || ("null".toList).isPrefixOf afterComma then true
        else fallback
    else if nc = ':' then true
    else if nc = dquote then
      let tail1 :=
        let isValueStart := nc.isDigit || nc = '-' || nc = lbrace
          || nc = '[' || ("true".toList).isPrefixOf after
          || ("false".toList).isPrefixOf after
          || ("null".toList).isPrefixOf after
        if isValueStart then lastOpener accRev ≠ none else false
      match scanPastStr (afterRest.length + 1) afterRest 0 with
      | some relPos =>
        if relPos = 0 then false
        else
          let afterM := (afterRest.drop (relPos + 1)).dropWhile isWs4
          if afterM.head? == some ':' then true
          else if afterM.head? == some rbrace
              || afterM.head? == some ','
              || afterM.head? == some ']' then true
          else if afterM.head? == some dquote then
            if lastOpener accRev == some '[' then true else tail1
          else tail1
      | none => tail1
    else
      let isValueStart := nc.isDigit || nc = '-' || nc = lbrace
        || nc = '[' || ("true".toList).isPrefixOf after
        || ("false".toList).isPrefixOf after
        || ("null".toList).isPrefixOf after
      if isValueStart then
        if nc.isDigit || nc = '-' then
          let numSeg := after.takeWhile
            (fun x => x.isDigit || x = '.' || x = '-' || x = '+'
              || x = 'e' || x = 'E')
          let afterNum := after.drop numSeg.length
          if afterNum.head? == some dquote then false
          else lastOpener accRev ≠ none
        else lastOpener accRev ≠ none
      else false

/-- Loop body of `fix_unescaped_quotes` (normalizers.py lines 1413-1709):
ordinary characters pass through, a backslash inside a string starts an
escape, and a quote inside a string is resolved by `quoteDecideClosing`,
either closing the string or being escaped with an `UNESCAPED_QUOTE`
repair. -/
def fixUnescapedQuotesStep (text : List Char) (i : Nat) (c : Char)
    (rs : List Char) (inString escNext : Bool) (accRev : List Char) :
    QuoteStep :=
  if escNext then ⟨[c], inString, false, []⟩
  else if c = bslash then ⟨[c], inString, inString, []⟩
  else if c = dquote then
    if !inString then ⟨[dquote], true, false, []⟩
    else if quoteDecideClosing rs accRev then ⟨[dquote], false, false, []⟩
    else ⟨[bslash, dquote], true, false,
      [createRepair .UNESCAPED_QUOTE text i [dquote] [bslash, dquote]]⟩
  else ⟨[c], inString, false, []⟩

/-- Loop of `fix_unescaped_quotes`: each iteration consumes one character
and applies `fixUnescapedQuotesStep`. -/
def fixUnescapedQuotesGo (text : List Char) :
    Nat → Nat → List Char → Bool → Bool → List Char → List Repair →
    List Char × List Repair
  | 0, _, _, _, _, accRev, reps => (accRev.reverse, reps)
  | fuel + 1, i, rest, inString, escNext, accRev, reps =>
    match rest with
    | [] => (accRev.reverse, reps)
    | c :: rs =>
      let st := fixUnescapedQuotesStep text i c rs inString escNext accRev
      fixUnescapedQuotesGo text fuel (i + 1) rs st.inString st.escNext
        (st.emitted.reverse ++ accRev) (reps ++ st.delta)

/-- `fix_unescaped_quotes` from normalizers.py. -/
def fixUnescapedQuotes (text : List Char) : List Char × List Repair :=
  fixUnescapedQuotesGo text (text.length + 1) 0 text false false [] []

/-- Loop of `remove_double_commas` (normalizers.py lines 1736-1805): a comma
outside strings is dropped when the last non-whitespace output character is
an opening bracket (leading comma) or another comma. -/
def removeDoubleCommasGo (text : List Char) :
    Nat → Nat → List Char → Bool → Bool → List Char → List Repair →
    List Char × List Repair
  | 0, _, _, _, _, accRev, reps => (accRev.reverse, reps)
  | fuel + 1, i, rest, inString, escNext, accRev, reps =>
    match rest with
    | [] => (accRev.reverse, reps)
    | c :: rs =>
      if escNext then
        removeDoubleCommasGo text fuel (i + 1) rs inString false (c :: accRev)
          reps
      else if c == bslash && inString then
        removeDoubleCommasGo text fuel (i + 1) rs inString true (c :: accRev)
          reps
      else if c = dquote then
        removeDoubleCommasGo text fuel (i + 1) rs (!inString) false
          (c :: accRev) reps
      else if c == ',' && !inString then
        let lastStructural := (accRev.dropWhile isWs4).head?
        if lastStructural == some lbrace || lastStructural == some '[' then
          removeDoubleCommasGo text fuel (i + 1) rs inString false accRev
            (reps ++ [createRepair .DOUBLE_COMMA text i [','] []])
        else if lastStructural == some ',' then
          removeDoubleCommasGo text fuel (i + 1) rs inString false accRev
            (reps ++ [createRepair .DOUBLE_COMMA text i [','] []])
        else
          removeDoubleCommasGo text fuel (i + 1) rs inString false
            (c :: accRev) reps
      else
        removeDoubleCommasGo text fuel (i + 1) rs inString false (c :: accRev)
          reps

/-- `remove_double_commas` from normalizers.py. -/
def removeDoubleCommas (text : List Char) : List Char × List Repair :=
  removeDoubleCommasGo text (text.length + 1) 0 text false false [] []

/-- Loop of `convert_javascript_values` (normalizers.py lines 1843-1917):
outside strings, `NaN`, `Infinity`, `undefined` (with word boundaries) and
sign-prefixed `Infinity` (with only the right boundary checked) become
`null`.  `prev` is the previous character, for the left boundary. -/
def convertJavascriptValuesGo (text : List Char) :
    Nat → Nat → List Char → Bool → Bool → Option Char → List Char →
    List Repair → List Char × List Repair
  | 0, _, _, _, _, _, accRev, reps => (accRev.reverse, reps)
  | fuel + 1, i, rest, inString, escNext, prev, accRev, reps =>
    match rest with
    | [] => (accRev.reverse, reps)
    | c :: rs =>
      if escNext then
        convertJavascriptValuesGo text fuel (i + 1) rs inString false (some c)
          (c :: accRev) reps
      else if c == bslash && inString then
        convertJavascriptValuesGo text fuel (i + 1) rs inString true (some c)
          (c :: accRev) reps
      else if c = dquote then
        convertJavascriptValuesGo text fuel (i + 1) rs (!inString) false
          (some c) (c :: accRev) reps
      else if !inString then
        let startOk := match prev with
          | none => true
          | some p => !p.isAlphanum
        if (c == '-' || c == '+') && ("Infinity".toList).isPrefixOf rs
            && boundaryOkAfter (rs.drop 8) then
          convertJavascriptValuesGo text fuel (i + 9) (rs.drop 8) inString
            false (some 'y') ("null".toList.reverse ++ accRev)
            (reps ++ [createRepair .JAVASCRIPT_VALUE text i
              (c :: "Infinity".toList) "null".toList])
        else if ("NaN".toList).isPrefixOf (c :: rs) && startOk
            && boundaryOkAfter ((c :: rs).drop 3) then
          convertJavascriptValuesGo text fuel (i + 3) ((c :: rs).drop 3)
            inString false (some 'N') ("null".toList.reverse ++ accRev)
            (reps ++ [createRepair .JAVASCRIPT_VALUE text i "NaN".toList
              "null".toList])
        else if ("Infinity".toList).isPrefixOf (c :: rs) && startOk
            && boundaryOkAfter ((c :: rs).drop 8) then
          convertJavascriptValuesGo text fuel (i + 8) ((c :: rs).drop 8)
            inString false (some 'y') ("null".toList.reverse ++ accRev)
            (reps ++ [createRepair .JAVASCRIPT_VALUE text i "Infinity".toList
              "null".toList])
        else if ("undefined".toList).isPrefixOf (c :: rs) && startOk
            && boundaryOkAfter ((c :: rs).drop 9) then
          convertJavascriptValuesGo text fuel (i + 9) ((c :: rs).drop 9)
            inString false (some 'd') ("null".toList.reverse ++ accRev)
            (reps ++ [createRepair .JAVASCRIPT_VALUE text i
              "undefined".toList "null".toList])
        else
          convertJavascriptValuesGo text fuel (i + 1) rs inString false
            (some c) (c :: accRev) reps
      else
        convertJavascriptValuesGo text fuel (i + 1) rs inString false (some c)
          (c :: accRev) reps

/-- `convert_javascript_values` from normalizers.py. -/
def convertJavascriptValues (text : List Char) : List Char × List Repair :=
  convertJavascriptValuesGo text (text.length + 1) 0 text false false none
    [] []

/-- Numeric value of a hexadecimal digit character. -/
def digitVal (c : Char) : Nat :=
  if c.isDigit then c.toNat - 48
  else if 'a' ≤ c && c ≤ 'f' then c.toNat - 87
  else c.toNat - 55

/-- Decimal rendering of a converted number, `str(value)` with the sign
propagated (`-0` renders as `0`, as in Python). -/
def renderNumber (negative : Bool) (value : Nat) : List Char :=
  if negative && value ≠ 0 then '-' :: natToChars value else natToChars value

/-- Result of one iteration of the `convert_number_formats` loop. -/
structure NumStep where
  consumed : Nat
  emitted : List Char
  inString : Bool
  escNext : Bool
  delta : List Repair

/-- Successful base conversion of `convert_number_formats`: consume the
optional sign, the `0` prefix pair and the digits, and emit the decimal
rendering with a `NUMBER_FORMAT` repair at the start position. -/
def convertBaseStep (text : List Char) (i : Nat) (c : Char) (rs : List Char)
    (negative : Bool) (signLen : Nat) (digits : List Char) (base : Nat) :
    NumStep :=
  let value := digits.foldl (fun a d => a * base + digitVal d) 0
  let consumed := signLen + 2 + digits.length
  let original := (c :: rs).take consumed
  let repl := renderNumber negative value
  ⟨consumed, repl, false, false,
    [createRepair .NUMBER_FORMAT text i original repl]⟩

/-- The non-decimal literal recogniser of `convert_number_formats`
(normalizers.py lines 1970-2064): an optional minus, `0` and a base tag
followed by at least one digit of that base give a conversion; otherwise
`none`. -/
def tryNumberFormat (text : List Char) (i : Nat) (c : Char)
    (rs : List Char) : Option NumStep :=
  let negative := c == '-' && rs.head? == some '0'
  let zs := if negative then rs else c :: rs
  let signLen := if negative then 1 else 0
  if (c == '0' || negative) && decide (2 ≤ zs.length) then
    let nc := ((zs.get? 1).getD ' ').toLower
    if nc = 'x' then
      let digits := (zs.drop 2).takeWhile isPyHexDigit
      if digits ≠ [] then
        some (convertBaseStep text i c rs negative signLen digits 16)
      else none
    else if nc = 'o' then
      let digits := (zs.drop 2).takeWhile (fun d => '0' ≤ d && d ≤ '7')
      if digits ≠ [] then
        some (convertBaseStep text i c rs negative signLen digits 8)
      else none
    else if nc = 'b' then
      let digits := (zs.drop 2).takeWhile (fun d => d = '0' || d = '1')
      if digits ≠ [] then
        some (convertBaseStep text i c rs negative signLen digits 2)
      else none
    else none
  else none

/-- Loop body of `convert_number_formats` (normalizers.py lines 1946-2071):
outside strings a recognised non-decimal literal is converted; otherwise
the character passes through (after an unconverted minus-zero prefix, both
its characters do). -/
def convertNumberFormatsStep (text : List Char) (i : Nat) (c : Char)
    (rs : List Char) (inString escNext : Bool) : NumStep :=
  if escNext then ⟨1, [c], inString, false, []⟩
  else if c == bslash && inString then ⟨1, [c], inString, true, []⟩
  else if c = dquote then ⟨1, [c], !inString, false, []⟩
  else if !inString then
    match tryNumberFormat text i c rs with
    | some st => st
    | none =>
      if c == '-' && rs.head? == some '0' then ⟨2, ['-', '0'], inString, false, []⟩
      else ⟨1, [c], inString, false, []⟩
  else ⟨1, [c], inString, false, []⟩

/-- Loop of `convert_number_formats`: apply `convertNumberFormatsStep`
until the text is exhausted. -/
def convertNumberFormatsGo (text : List Char) :
    Nat → Nat → List Char → Bool → Bool → List Char → List Repair →
    List Char × List Repair
  | 0, _, _, _, _, accRev, reps => (accRev.reverse, reps)
  | fuel + 1, i, rest, inString, escNext, accRev, reps =>
    match rest with
    | [] => (accRev.reverse, reps)
    | c :: rs =>
      let st := convertNumberFormatsStep text i c rs inString escNext
      convertNumberFormatsGo text fuel (i + st.consumed)
        ((c :: rs).drop st.consumed) st.inString st.escNext
        (st.emitted.reverse ++ accRev) (reps ++ st.delta)

/-- `convert_number_formats` from normalizers.py. -/
def convertNumberFormats (text : List Char) : List Char × List Repair :=
  convertNumberFormatsGo text (text.length + 1) 0 text false false [] []

/-- JSON value trees produced by the strict parser (spec section 4.19).
Numbers keep their raw lexeme, which is all the claims need. -/
inductive Json where
  | null
  | bool (b : Bool)
  | num (raw : List Char)
  | str (s : List Char)
  | arr (items : List Json)
  | obj (entries : List (List Char × Json))

/-- JSON whitespace of RFC 8259. -/
def jsonWs (c : Char) : Bool :=
  c = ' ' || c = '\t' || c = '\n' || c = '\r'

/-- String-body scanner of the modelled strict parser: decode the content
after an opening quote, returning the decoded characters and the remainder
after the closing quote.  Raw control characters are rejected, as in a
strict RFC 8259 parser. -/
def jsonStringBody : Nat → List Char → List Char → Option (List Char × List Char)
  | 0, _, _ => none
  | fuel + 1, l, acc =>
    match l with
    | [] => none
    | c :: rs =>
      if c = dquote then some (acc.reverse, rs)
      else if c = bslash then
        match rs with
        | [] => none
        | e :: rs2 =>
          if e = dquote then jsonStringBody fuel rs2 (dquote :: acc)
          else if e = bslash then jsonStringBody fuel rs2 (bslash :: acc)
          else if e = '/' then jsonStringBody fuel rs2 ('/' :: acc)
          else if e = 'b' then jsonStringBody fuel rs2 (Char.ofNat 8 :: acc)
          else if e = 'f' then jsonStringBody fuel rs2 (Char.ofNat 12 :: acc)
          else if e = 'n' then jsonStringBody fuel rs2 ('\n' :: acc)
          else if e = 'r' then jsonStringBody fuel rs2 ('\r' :: acc)
          else if e = 't' then jsonStringBody fuel rs2 ('\t' :: acc)
          else if e = 'u' && decide (4 ≤ rs2.length)
              && (rs2.take 4).all isPyHexDigit then
            let n := (rs2.take 4).foldl (fun a d => a * 16 + digitVal d) 0
            jsonStringBody fuel (rs2.drop 4) (Char.ofNat n :: acc)
          else none
      else if c.toNat < 0x20 then none
      else jsonStringBody fuel rs (c :: acc)

/-- Number lexeme of RFC 8259 starting at the head of `l`:
optional minus, integer part without leading zeros, optional fraction,
optional exponent.  Returns the lexeme and the remainder. -/
def jsonNumberLex (l : List Char) : Option (List Char × List Char) :=
  let sign : List Char := if l.head? = some '-' then ['-'] else []
  let l1 := l.drop sign.length
  let intPart : Option (List Char × List Char) :=
    match l1 with
    | [] => none
    | c :: rs =>
      if c = '0' then some (['0'], rs)
      else if c.isDigit then
        some (c :: rs.takeWhile Char.isDigit, rs.dropWhile Char.isDigit)
      else none
  match intPart with
  | none => none
  | some (ip, l2) =>
    let fracStep : Option (List Char × List Char) :=
      match l2 with
      | '.' :: rs =>
        let ds := rs.takeWhile Char.isDigit
        if ds = [] then none else some ('.' :: ds, rs.drop ds.length)
      | _ => some ([], l2)
    match fracStep with
    | none => none
    | some (fp, l3) =>
      let expStep : Option (List Char × List Char) :=
        match l3 with
        | e :: rs =>
          if e = 'e' || e = 'E' then
            let sgn : List Char :=
              if rs.head? = some '+' || rs.head? = some '-' then
                [rs.headD '+'] else []
            let ds := (rs.drop sgn.length).takeWhile Char.isDigit
            if ds = [] then none
            else some (e :: sgn ++ ds, (rs.drop sgn.length).drop ds.length)
          else some ([], l3)
        | [] => some ([], l3)
      match expStep with
      | none => none
      | some (ep, l4) => some (sign ++ ip ++ fp ++ ep, l4)

mutual

/-- Modelled from the spec: the external strict JSON parser of section 4.19,
a black box obeying RFC 8259 (value grammar with objects, arrays, strings,
numbers, `true`, `false`, `null`).  Its Python realisation `json.loads` is
out of scope of the spec core; this model covers the RFC surface the claims
rely on.  Returns the value and the unconsumed remainder. -/
def jsonValue : Nat → List Char → Option (Json × List Char)
  | 0, _ => none
  | fuel + 1, l =>
    let l1 := l.dropWhile jsonWs
    match l1 with
    | [] => none
    | c :: rs =>
      if c = dquote then
        (jsonStringBody (rs.length + 1) rs []).map
          (fun p => (Json.str p.1, p.2))
      else if c = lbrace then
        let l2 := rs.dropWhile jsonWs
        if l2.head? = some rbrace then some (Json.obj [], l2.drop 1)
        else jsonMembers fuel rs []
      else if c = '[' then
        let l2 := rs.dropWhile jsonWs
        if l2.head? = some ']' then some (Json.arr [], l2.drop 1)
        else jsonItems fuel rs []
      else if ("true".toList).isPrefixOf l1 then
        some (Json.bool true, l1.drop 4)
      else if ("false".toList).isPrefixOf l1 then
        some (Json.bool false, l1.drop 5)
      else if ("null".toList).isPrefixOf l1 then
        some (Json.null, l1.drop 4)
      else
        (jsonNumberLex l1).map (fun p => (Json.num p.1, p.2))

/-- Object members of the modelled strict parser, after the opening brace or
a comma. -/
def jsonMembers : Nat → List Char →
    List (List Char × Json) → Option (Json × List Char)
  | 0, _, _ => none
  | fuel + 1, l, acc =>
    let l1 := l.dropWhile jsonWs
    match l1 with
    | [] => none
    | c :: rs =>
      if c = dquote then
        match jsonStringBody (rs.length + 1) rs [] with
        | none => none
        | some (key, l2) =>
          let l3 := l2.dropWhile jsonWs
          match l3 with
          | ':' :: l4 =>
            match jsonValue fuel l4 with
            | none => none
            | some (v, l5) =>
              let l6 := l5.dropWhile jsonWs
              match l6 with
              | ',' :: l7 => jsonMembers fuel l7 ((key, v) :: acc)
              | b :: l7 =>
                if b = rbrace then
                  some (Json.obj ((key, v) :: acc).reverse, l7)
                else none
              | [] => none
          | _ => none
      else none

/-- Array items of the modelled strict parser, after the opening bracket or
a comma. -/
def jsonItems : Nat → List Char → List Json → Option (Json × List Char)
  | 0, _, _ => none
  | fuel + 1, l, acc =>
    match jsonValue fuel l with
    | none => none
    | some (v, l2) =>
      let l3 := l2.dropWhile jsonWs
      match l3 with
      | ',' :: l4 => jsonItems fuel l4 (v :: acc)
      | ']' :: l4 => some (Json.arr (v :: acc).reverse, l4)
      | _ => none

end

/-- Modelled from the spec: top level of the strict parser; the whole text
must be one JSON value with only whitespace around it. -/
def jsonLoads (l : List Char) : Option Json :=
  match jsonValue (l.length + 1) l with
  | some (v, rest) => if rest.dropWhile jsonWs = [] then some v else none
  | none => none

/-- The `on_repair` option (a literal type in parser.py). -/
inductive OnRepair where
  | ignore
  | warn
  | error
  deriving DecidableEq, Repr

/-- The keyword options of `loads_relaxed` (parser.py lines 337-367), one
boolean per transform, all defaulting to true, plus `strict` and
`on_repair`.  Fields that would collide with normalizer names carry an
`Opt` suffix. -/
structure Options where
  strict : Bool := false
  allowTrailingCommas : Bool := true
  allowComments : Bool := true
  normalizeQuotesOpt : Bool := true
  allowSingleQuoteStrings : Bool := true
  allowUnquotedKeys : Bool := true
  convertPythonLiteralsOpt : Bool := true
  escapeNewlines : Bool := true
  autoCloseBracketsOpt : Bool := true
  removeEllipsis : Bool := true
  extractJson : Bool := true
  removeMarkdownFencesOpt : Bool := true
  fixUnescapedQuotesOpt : Bool := true
  fixMissingColon : Bool := true
  fixMissingComma : Bool := true
  escapeControlChars : Bool := true
  fixUnescapedBackslashOpt : Bool := true
  convertJavascriptValuesOpt : Bool := true
  convertNumberFormatsOpt : Bool := true
  removeDoubleCommasOpt : Bool := true
  onRepair : OnRepair := .ignore

/-- The all-defaults option record. -/
def defaultOptions : Options := {}

/-- Whether a stage delta contains a repair whose kind is missing from the
Python enum; emitting such a repair raises `AttributeError` at the
`RepairKind.NAME` attribute access. -/
def stageCrash (delta : List Repair) : Bool :=
  delta.any (fun r => !r.kind.definedInEnum)

/-- Run one (pure) normalizer stage: append its delta to the log, or abort
with `AttributeError` keeping only the repairs appended before the one with
the undefined kind. -/
def appendStage (enabled : Bool) (f : List Char → List Char × List Repair)
    (st : List Repair × Except PyErr (List Char)) :
    List Repair × Except PyErr (List Char) :=
  match st with
  | (log, .error e) => (log, .error e)
  | (log, .ok t) =>
    if enabled then
      let r := f t
      if stageCrash r.2 then
        (log ++ r.2.takeWhile (fun x => x.kind.definedInEnum),
          .error .attributeError)
      else (log ++ r.2, .ok r.1)
    else (log, .ok t)

/-- Run the comment-strip stage, which can itself raise
`RelaxedJSONError`; the repairs appended before the raise are kept. -/
def appendCommentStage (enabled : Bool)
    (st : List Repair × Except PyErr (List Char)) :
    List Repair × Except PyErr (List Char) :=
  match st with
  | (log, .error e) => (log, .error e)
  | (log, .ok t) =>
    if enabled then
      let r := stripComments t
      if stageCrash r.1 then
        (log ++ r.1.takeWhile (fun x => x.kind.definedInEnum),
          .error .attributeError)
      else
        (log ++ r.1,
          match r.2 with
          | .error e => .error e
          | .ok t2 => .ok t2)
    else (log, .ok t)

/-- The BOM strip and stages 0.1 through 6 of `loads_relaxed` (parser.py
lines 440-493): everything that runs before the comment-strip stage. -/
def pipelinePreComments (opts : Options) (s : List Char) :
    List Repair × Except PyErr (List Char) :=
  let t0 := if s.head? = some (Char.ofNat 0xfeff) then s.drop 1 else s
  let st0 : List Repair × Except PyErr (List Char) := ([], .ok t0)
  let st1 := appendStage opts.removeMarkdownFencesOpt removeMarkdownFences st0
  let st2 := appendStage opts.extractJson extractJsonFromText st1
  let st3 := appendStage opts.normalizeQuotesOpt normalizeQuotes st2
  let st4 := appendStage opts.allowSingleQuoteStrings convertSingleQuoteStrings
    st3
  let st5 := appendStage opts.allowUnquotedKeys quoteUnquotedKeys st4
  let st6 := appendStage opts.convertPythonLiteralsOpt convertPythonLiterals
    st5
  let st7 := appendStage opts.fixUnescapedBackslashOpt fixUnescapedBackslash
    st6
  let st8 := appendStage opts.escapeNewlines escapeNewlinesInStrings st7
  let st9 := appendStage opts.escapeControlChars escapeControlCharacters st8
  appendStage opts.removeEllipsis removeEllipsisMarkers st9

/-- Stages 7 through 10 of `loads_relaxed` (parser.py lines 495-550): the
comment strip and everything after it. -/
def pipelineAll (opts : Options) (s : List Char) :
    List Repair × Except PyErr (List Char) :=
  let st11 := appendCommentStage opts.allowComments (pipelinePreComments opts s)
  let st12 := appendStage opts.convertNumberFormatsOpt convertNumberFormats
    st11
  let st13 := appendStage opts.convertJavascriptValuesOpt
    convertJavascriptValues st12
  let st14 := appendStage opts.fixMissingColon fixMissingColons st13
  let st15 := appendStage opts.fixUnescapedQuotesOpt fixUnescapedQuotes st14
  let st16 := appendStage opts.fixMissingComma fixMissingCommas st15
  let st17 := appendStage opts.autoCloseBracketsOpt autoCloseBrackets st16
  let st18 := appendStage opts.allowTrailingCommas removeTrailingCommas st17
  appendStage opts.removeDoubleCommasOpt removeDoubleCommas st18

/-- The repair-gate message of parser.py lines 556-559. -/
def repairGateMessage (r : Repair) : List Char :=
  "Repair needed at line ".toList ++ natToChars r.line
    ++ ", column ".toList ++ natToChars r.column ++ ": ".toList ++ r.message

/-- `loads_relaxed` from parser.py, parametrised by the external strict
parser `jl` (the module-level `json.loads`).  Returns the repairs appended
to the caller-visible log together with the outcome.  In `warn` mode the
warnings are emitted on a host channel and do not affect the outcome. -/
def loadsRelaxedP (jl : List Char → Option Json) (opts : Options)
    (s : List Char) : List Repair × Except PyErr Json :=
  if opts.strict then
    ([], match jl s with
      | some v => .ok v
      | none => .error .jsonDecode)
  else
    match pipelineAll opts s with
    | (log, .error e) => (log, .error e)
    | (log, .ok processed) =>
      match log, opts.onRepair with
      | r :: _, .error =>
        (log, .error (.repairGate r.line r.column (repairGateMessage r)))
      | _, _ =>
        (log, match jl processed with
          | some v => .ok v
          | none => .error .jsonDecode)

/-- `loads_relaxed` with the modelled strict parser plugged in. -/
def loadsRelaxed (opts : Options) (s : List Char) :
    List Repair × Except PyErr Json :=
  loadsRelaxedP jsonLoads opts s

/-- Coordinate well-formedness of a repair record: 1-indexed line and
column. -/
def repairWF (r : Repair) : Prop := 1 ≤ r.line ∧ 1 ≤ r.column

theorem repairWF_createRepair (k : RepairKind) (t : List Char) (p : Nat)
    (o rp : List Char) : repairWF (createRepair k t p o rp) :=
  createRepair_line_column_pos k t p o rp

theorem wfAppend {reps : List Repair} (h : ∀ r ∈ reps, repairWF r)
    (k : RepairKind) (t : List Char) (p : Nat) (o rp : List Char) :
    ∀ r ∈ reps ++ [createRepair k t p o rp], repairWF r := by
  intro r hr
  rcases List.mem_append.mp hr with h1 | h1
  · exact h r h1
  · rcases List.mem_singleton.mp h1 with rfl
    exact repairWF_createRepair ..

theorem wfAppendList {a b : List Repair} (ha : ∀ r ∈ a, repairWF r)
    (hb : ∀ r ∈ b, repairWF r) : ∀ r ∈ a ++ b, repairWF r := by
  intro r hr
  rcases List.mem_append.mp hr with h1 | h1
  · exact ha r h1
  · exact hb r h1

theorem normalizeQuotesGo_wf (text : List Char) :
    ∀ (fuel i : Nat) (rest accRev : List Char) (reps : List Repair),
      (∀ r ∈ reps, repairWF r) →
      ∀ r ∈ (normalizeQuotesGo text fuel i rest accRev reps).2, repairWF r := by
  intro fuel
  induction fuel with
  | zero =>
    intro i rest accRev reps h r hr
    exact h r (by simpa [normalizeQuotesGo] using hr)
  | succ n ih =>
    intro i rest accRev reps h r hr
    match rest with
    | [] => exact h r (by simpa [normalizeQuotesGo] using hr)
    | c :: rs =>
      rw [normalizeQuotesGo] at hr
      rcases hsm : smartQuoteMap c with _ | q
      · rw [hsm] at hr
        exact ih _ _ _ _ h r hr
      · rw [hsm] at hr
        exact ih _ _ _ _ (wfAppend h _ _ _ _ _) r hr

theorem stripCommentsGo_wf (text : List Char) :
    ∀ (fuel i : Nat) (rest : List Char) (inString escNext : Bool)
      (prev : Option Char) (accRev : List Char) (reps : List Repair),
      (∀ r ∈ reps, repairWF r) →
      ∀ r ∈ (stripCommentsGo text fuel i rest inString escNext prev accRev
        reps).1, repairWF r := by
  intro fuel
  induction fuel with
  | zero =>
    intro i rest inString escNext prev accRev reps h r hr
    exact h r (by simpa [stripCommentsGo] using hr)
  | succ n ih =>
    intro i rest inString escNext prev accRev reps h r hr
    match rest with
    | [] => exact h r (by simpa [stripCommentsGo] using hr)
    | c :: rs =>
      rw [stripCommentsGo] at hr
      repeat' split at hr
      all_goals
        first
          | exact ih _ _ _ _ _ _ _ h r hr
          | exact ih _ _ _ _ _ _ _ (wfAppend h _ _ _ _ _) r hr
          | exact (wfAppend h _ _ _ _ _) r hr
          | exact h r (by simpa using hr)

theorem removeTrailingCommasGo_wf (text : List Char) :
    ∀ (fuel i : Nat) (rest : List Char) (inString escNext : Bool)
      (accRev : List Char) (reps : List Repair),
      (∀ r ∈ reps, repairWF r) →
      ∀ r ∈ (removeTrailingCommasGo text fuel i rest inString escNext accRev
        reps).2, repairWF r := by
  intro fuel
  induction fuel with
  | zero =>
    intro i rest inString escNext accRev reps h r hr
    exact h r (by simpa [removeTrailingCommasGo] using hr)
  | succ n ih =>
    intro i rest inString escNext accRev reps h r hr
    match rest with
    | [] => exact h r (by simpa [removeTrailingCommasGo] using hr)
    | c :: rs =>
      rw [removeTrailingCommasGo] at hr
      repeat' split at hr
      all_goals
        first
          | exact ih _ _ _ _ _ _ h r hr
          | exact ih _ _ _ _ _ _ (wfAppend h _ _ _ _ _) r hr
          | exact (wfAppend h _ _ _ _ _) r hr
          | exact h r (by simpa using hr)

theorem autoCloseBrackets_wf (text : List Char) :
    ∀ r ∈ (autoCloseBrackets text).2, repairWF r := by
  intro r hr
  simp only [autoCloseBrackets] at hr
  repeat' split at hr
  · exact absurd hr (List.not_mem_nil r)
  · exact absurd hr (List.not_mem_nil r)
  · rcases List.mem_map.mp hr with ⟨cl, _, rfl⟩
    exact repairWF_createRepair ..

theorem convertSingleQuoteStringsGo_wf (text : List Char) :
    ∀ (fuel i : Nat) (rest : List Char) (inDouble escNext : Bool)
      (accRev : List Char) (reps : List Repair),
      (∀ r ∈ reps, repairWF r) →
      ∀ r ∈ (convertSingleQuoteStringsGo text fuel i rest inDouble escNext
        accRev reps).2, repairWF r := by
  intro fuel
  induction fuel with
  | zero =>
    intro i rest inDouble escNext accRev reps h r hr
    exact h r (by simpa [convertSingleQuoteStringsGo] using hr)
  | succ n ih =>
    intro i rest inDouble escNext accRev reps h r hr
    match rest with
    | [] => exact h r (by simpa [convertSingleQuoteStringsGo] using hr)
    | c :: rs =>
      rw [convertSingleQuoteStringsGo] at hr
      repeat' split at hr
      all_goals
        first
          | exact ih _ _ _ _ _ _ h r hr
          | exact ih _ _ _ _ _ _ (wfAppend h _ _ _ _ _) r hr
          | exact (wfAppend h _ _ _ _ _) r hr
          | exact h r (by simpa using hr)

theorem quoteUnquotedKeysGo_wf (text : List Char) :
    ∀ (fuel i : Nat) (rest : List Char) (inString escNext : Bool)
      (accRev : List Char) (reps : List Repair),
      (∀ r ∈ reps, repairWF r) →
      ∀ r ∈ (quoteUnquotedKeysGo text fuel i rest inString escNext accRev
        reps).2, repairWF r := by
  intro fuel
  induction fuel with
  | zero =>
    intro i rest inString escNext accRev reps h r hr
    exact h r (by simpa [quoteUnquotedKeysGo] using hr)
  | succ n ih =>
    intro i rest inString escNext accRev reps h r hr
    match rest with
    | [] => exact h r (by simpa [quoteUnquotedKeysGo] using hr)
    | c :: rs =>
      simp only [quoteUnquotedKeysGo] at hr
      repeat' split at hr
      all_goals
        first
          | exact ih _ _ _ _ _ _ h r hr
          | exact ih _ _ _ _ _ _ (wfAppend h _ _ _ _ _) r hr
          | exact (wfAppend h _ _ _ _ _) r hr
          | exact h r (by simpa using hr)

theorem convertPythonLiteralsGo_wf (text : List Char) :
    ∀ (fuel i : Nat) (rest : List Char) (inString escNext : Bool)
      (prev : Option Char) (accRev : List Char) (reps : List Repair),
      (∀ r ∈ reps, repairWF r) →
      ∀ r ∈ (convertPythonLiteralsGo text fuel i rest inString escNext prev
        accRev reps).2, repairWF r := by
  intro fuel
  induction fuel with
  | zero =>
    intro i rest inString escNext prev accRev reps h r hr
    exact h r (by simpa [convertPythonLiteralsGo] using hr)
  | succ n ih =>
    intro i rest inString escNext prev accRev reps h r hr
    match rest with
    | [] => exact h r (by simpa [convertPythonLiteralsGo] using hr)
    | c :: rs =>
      simp only [convertPythonLiteralsGo] at hr
      repeat' split at hr
      all_goals
        first
          | exact ih _ _ _ _ _ _ _ h r hr
          | exact ih _ _ _ _ _ _ _ (wfAppend h _ _ _ _ _) r hr
          | exact (wfAppend h _ _ _ _ _) r hr
          | exact h r (by simpa using hr)

theorem escapeNewlinesInStringsGo_wf (text : List Char) :
    ∀ (fuel i : Nat) (rest : List Char) (inString escNext : Bool)
      (accRev : List Char) (reps : List Repair),
      (∀ r ∈ reps, repairWF r) →
      ∀ r ∈ (escapeNewlinesInStringsGo text fuel i rest inString escNext
        accRev reps).2, repairWF r := by
  intro fuel
  induction fuel with
  | zero =>
    intro i rest inString escNext accRev reps h r hr
    exact h r (by simpa [escapeNewlinesInStringsGo] using hr)
  | succ n ih =>
    intro i rest inString escNext accRev reps h r hr
    match rest with
    | [] => exact h r (by simpa [escapeNewlinesInStringsGo] using hr)
    | c :: rs =>
      rw [escapeNewlinesInStringsGo] at hr
      repeat' split at hr
      all_goals
        first
          | exact ih _ _ _ _ _ _ h r hr
          | exact ih _ _ _ _ _ _ (wfAppend h _ _ _ _ _) r hr
          | exact (wfAppend h _ _ _ _ _) r hr
          | exact h r (by simpa using hr)

theorem removeEllipsisMarkersGo_wf (text : List Char) :
    ∀ (fuel i : Nat) (rest : List Char) (inString escNext : Bool)
      (accRev : List Char) (reps : List Repair),
      (∀ r ∈ reps, repairWF r) →
      ∀ r ∈ (removeEllipsisMarkersGo text fuel i rest inString escNext accRev
        reps).2, repairWF r := by
  intro fuel
  induction fuel with
  | zero =>
    intro i rest inString escNext accRev reps h r hr
    exact h r (by simpa [removeEllipsisMarkersGo] using hr)
  | succ n ih =>
    intro i rest inString escNext accRev reps h r hr
    match rest with
    | [] => exact h r (by simpa [removeEllipsisMarkersGo] using hr)
    | c :: rs =>
      rw [removeEllipsisMarkersGo] at hr
      repeat' split at hr
      all_goals
        first
          | exact ih _ _ _ _ _ _ h r hr
          | exact ih _ _ _ _ _ _ (wfAppend h _ _ _ _ _) r hr
          | exact (wfAppend h _ _ _ _ _) r hr
          | exact h r (by simpa using hr)

theorem removeMarkdownFences_wf (text : List Char) :
    ∀ r ∈ (removeMarkdownFences text).2, repairWF r := by
  intro r hr
  simp only [removeMarkdownFences] at hr
  repeat' split at hr
  all_goals
    first
      | exact absurd hr (List.not_mem_nil r)
      | (rcases List.mem_singleton.mp hr with rfl
         exact repairWF_createRepair ..)

theorem extractJsonFromText_wf (text : List Char) :
    ∀ r ∈ (extractJsonFromText text).2, repairWF r := by
  intro r hr
  simp only [extractJsonFromText] at hr
  repeat' split at hr
  all_goals
    first
      | exact absurd hr (List.not_mem_nil r)
      | (rcases List.mem_singleton.mp hr with rfl
         exact repairWF_createRepair ..)

theorem fixMissingColonsGo_wf (text : List Char) :
    ∀ (fuel i : Nat) (rest : List Char) (inString escNext : Bool)
      (accRev : List Char) (reps : List Repair),
      (∀ r ∈ reps, repairWF r) →
      ∀ r ∈ (fixMissingColonsGo text fuel i rest inString escNext accRev
        reps).2, repairWF r := by
  intro fuel
  induction fuel with
  | zero =>
    intro i rest inString escNext accRev reps h r hr
    exact h r (by simpa [fixMissingColonsGo] using hr)
  | succ n ih =>
    intro i rest inString escNext accRev reps h r hr
    match rest with
    | [] => exact h r (by simpa [fixMissingColonsGo] using hr)
    | c :: rs =>
      simp only [fixMissingColonsGo] at hr
      repeat' split at hr
      all_goals
        first
          | exact ih _ _ _ _ _ _ h r hr
          | exact ih _ _ _ _ _ _ (wfAppend h _ _ _ _ _) r hr
          | exact (wfAppend h _ _ _ _ _) r hr
          | exact h r (by simpa using hr)

theorem commaEmit_wf (text : List Char) (i : Nat) (insert : Bool)
    (consumed : Nat) (val : List Char) (inString escNext justSaw : Bool)
    (stack : List Char) :
    ∀ r ∈ (commaEmit text i insert consumed val inString escNext justSaw
      stack).delta, repairWF r := by
  intro r hr
  simp only [commaEmit] at hr
  split at hr
  · rcases List.mem_singleton.mp hr with rfl
    exact repairWF_createRepair ..
  · exact absurd hr (List.not_mem_nil r)

theorem fixMissingCommasValueStep_wf (text : List Char) (i : Nat) (c : Char)
    (rs : List Char) (inString justSaw : Bool) (stack : List Char) :
    ∀ r ∈ (fixMissingCommasValueStep text i c rs inString justSaw
      stack).delta, repairWF r := by
  intro r hr
  simp only [fixMissingCommasValueStep] at hr
  repeat' split at hr
  all_goals
    first
      | exact absurd hr (List.not_mem_nil r)
      | exact commaEmit_wf text i _ _ _ _ _ _ _ r hr

theorem fixMissingCommasStructStep_wf (text : List Char) (i : Nat)
    (c : Char) (rs : List Char) (inString justSaw : Bool)
    (stack : List Char) :
    ∀ r ∈ (fixMissingCommasStructStep text i c rs inString justSaw
      stack).delta, repairWF r := by
  intro r hr
  simp only [fixMissingCommasStructStep] at hr
  repeat' split at hr
  all_goals
    first
      | exact absurd hr (List.not_mem_nil r)
      | exact commaEmit_wf text i _ _ _ _ _ _ _ r hr
      | exact fixMissingCommasValueStep_wf text i c rs inString justSaw
          stack r hr

theorem fixMissingCommasStep_wf (text : List Char) (i : Nat) (c : Char)
    (rs : List Char) (inString escNext justSaw : Bool) (stack : List Char) :
    ∀ r ∈ (fixMissingCommasStep text i c rs inString escNext justSaw
      stack).delta, repairWF r := by
  intro r hr
  simp only [fixMissingCommasStep] at hr
  repeat' split at hr
  all_goals
    first
      | exact absurd hr (List.not_mem_nil r)
      | exact commaEmit_wf text i _ _ _ _ _ _ _ r hr
      | exact fixMissingCommasStructStep_wf text i c rs inString justSaw
          stack r hr

theorem fixMissingCommasGo_wf (text : List Char) :
    ∀ (fuel i : Nat) (rest : List Char) (inString escNext justSaw : Bool)
      (stack accRev : List Char) (reps : List Repair),
      (∀ r ∈ reps, repairWF r) →
      ∀ r ∈ (fixMissingCommasGo text fuel i rest inString escNext justSaw
        stack accRev reps).2, repairWF r := by
  intro fuel
  induction fuel with
  | zero =>
    intro i rest inString escNext justSaw stack accRev reps h r hr
    exact h r (by simpa [fixMissingCommasGo] using hr)
  | succ n ih =>
    intro i rest inString escNext justSaw stack accRev reps h r hr
    match rest with
    | [] => exact h r (by simpa [fixMissingCommasGo] using hr)
    | c :: rs =>
      rw [fixMissingCommasGo] at hr
      exact ih _ _ _ _ _ _ _ _
        (wfAppendList h (fixMissingCommasStep_wf text i c rs inString escNext
          justSaw stack)) r hr

theorem escapeControlCharactersGo_wf (text : List Char) :
    ∀ (fuel i : Nat) (rest : List Char) (inString escNext : Bool)
      (accRev : List Char) (reps : List Repair),
      (∀ r ∈ reps, repairWF r) →
      ∀ r ∈ (escapeControlCharactersGo text fuel i rest inString escNext
        accRev reps).2, repairWF r := by
  intro fuel
  induction fuel with
  | zero =>
    intro i rest inString escNext accRev reps h r hr
    exact h r (by simpa [escapeControlCharactersGo] using hr)
  | succ n ih =>
    intro i rest inString escNext accRev reps h r hr
    match rest with
    | [] => exact h r (by simpa [escapeControlCharactersGo] using hr)
    | c :: rs =>
      simp only [escapeControlCharactersGo] at hr
      repeat' split at hr
      all_goals
        first
          | exact ih _ _ _ _ _ _ h r hr
          | exact ih _ _ _ _ _ _ (wfAppend h _ _ _ _ _) r hr
          | exact (wfAppend h _ _ _ _ _) r hr
          | exact h r (by simpa using hr)

theorem fixUnescapedBackslashGo_wf (text : List Char) :
    ∀ (fuel i : Nat) (rest : List Char) (inString escNext : Bool)
      (accRev : List Char) (reps : List Repair),
      (∀ r ∈ reps, repairWF r) →
      ∀ r ∈ (fixUnescapedBackslashGo text fuel i rest inString escNext accRev
        reps).2, repairWF r := by
  intro fuel
  induction fuel with
  | zero =>
    intro i rest inString escNext accRev reps h r hr
    exact h r (by simpa [fixUnescapedBackslashGo] using hr)
  | succ n ih =>
    intro i rest inString escNext accRev reps h r hr
    match rest with
    | [] => exact h r (by simpa [fixUnescapedBackslashGo] using hr)
    | c :: rs =>
      simp only [fixUnescapedBackslashGo] at hr
      repeat' split at hr
      all_goals
        first
          | exact ih _ _ _ _ _ _ h r hr
          | exact ih _ _ _ _ _ _ (wfAppend h _ _ _ _ _) r hr
          | exact (wfAppend h _ _ _ _ _) r hr
          | exact h r (by simpa using hr)

theorem fixUnescapedQuotesStep_wf (text : List Char) (i : Nat) (c : Char)
    (rs : List Char) (inString escNext : Bool) (accRev : List Char) :
    ∀ r ∈ (fixUnescapedQuotesStep text i c rs inString escNext
      accRev).delta, repairWF r := by
  intro r hr
  simp only [fixUnescapedQuotesStep] at hr
  repeat' split at hr
  all_goals
    first
      | exact absurd hr (List.not_mem_nil r)
      | (rcases List.mem_singleton.mp hr with rfl
         exact repairWF_createRepair ..)

theorem fixUnescapedQuotesGo_wf (text : List Char) :
    ∀ (fuel i : Nat) (rest : List Char) (inString escNext : Bool)
      (accRev : List Char) (reps : List Repair),
      (∀ r ∈ reps, repairWF r) →
      ∀ r ∈ (fixUnescapedQuotesGo text fuel i rest inString escNext accRev
        reps).2, repairWF r := by
  intro fuel
  induction fuel with
  | zero =>
    intro i rest inString escNext accRev reps h r hr
    exact h r (by simpa [fixUnescapedQuotesGo] using hr)
  | succ n ih =>
    intro i rest inString escNext accRev reps h r hr
    match rest with
    | [] => exact h r (by simpa [fixUnescapedQuotesGo] using hr)
    | c :: rs =>
      rw [fixUnescapedQuotesGo] at hr
      exact ih _ _ _ _ _ _
        (wfAppendList h (fixUnescapedQuotesStep_wf text i c rs inString
          escNext accRev)) r hr

theorem removeDoubleCommasGo_wf (text : List Char) :
    ∀ (fuel i : Nat) (rest : List Char) (inString escNext : Bool)
      (accRev : List Char) (reps : List Repair),
      (∀ r ∈ reps, repairWF r) →
      ∀ r ∈ (removeDoubleCommasGo text fuel i rest inString escNext accRev
        reps).2, repairWF r := by
  intro fuel
  induction fuel with
  | zero =>
    intro i rest inString escNext accRev reps h r hr
    exact h r (by simpa [removeDoubleCommasGo] using hr)
  | succ n ih =>
    intro i rest inString escNext accRev reps h r hr
    match rest with
    | [] => exact h r (by simpa [removeDoubleCommasGo] using hr)
    | c :: rs =>
      simp only [removeDoubleCommasGo] at hr
      repeat' split at hr
      all_goals
        first
          | exact ih _ _ _ _ _ _ h r hr
          | exact ih _ _ _ _ _ _ (wfAppend h _ _ _ _ _) r hr
          | exact (wfAppend h _ _ _ _ _) r hr
          | exact h r (by simpa using hr)

theorem convertJavascriptValuesGo_wf (text : List Char) :
    ∀ (fuel i : Nat) (rest : List Char) (inString escNext : Bool)
      (prev : Option Char) (accRev : List Char) (reps : List Repair),
      (∀ r ∈ reps, repairWF r) →
      ∀ r ∈ (convertJavascriptValuesGo text fuel i rest inString escNext prev
        accRev reps).2, repairWF r := by
  intro fuel
  induction fuel with
  | zero =>
    intro i rest inString escNext prev accRev reps h r hr
    exact h r (by simpa [convertJavascriptValuesGo] using hr)
  | succ n ih =>
    intro i rest inString escNext prev accRev reps h r hr
    match rest with
    | [] => exact h r (by simpa [convertJavascriptValuesGo] using hr)
    | c :: rs =>
      simp only [convertJavascriptValuesGo] at hr
      repeat' split at hr
      all_goals
        first
          | exact ih _ _ _ _ _ _ _ h r hr
          | exact ih _ _ _ _ _ _ _ (wfAppend h _ _ _ _ _) r hr
          | exact (wfAppend h _ _ _ _ _) r hr
          | exact h r (by simpa using hr)

theorem convertBaseStep_wf (text : List Char) (i : Nat) (c : Char)
    (rs : List Char) (negative : Bool) (signLen : Nat) (digits : List Char)
    (base : Nat) :
    ∀ r ∈ (convertBaseStep text i c rs negative signLen digits base).delta,
      repairWF r := by
  intro r hr
  rcases List.mem_singleton.mp hr with rfl
  exact repairWF_createRepair ..

theorem tryNumberFormat_wf (text : List Char) (i : Nat) (c : Char)
    (rs : List Char) (st : NumStep)
    (hst : tryNumberFormat text i c rs = some st) :
    ∀ r ∈ st.delta, repairWF r := by
  simp only [tryNumberFormat] at hst
  repeat' split at hst
  all_goals
    first
      | (rcases Option.some.inj hst with rfl
         apply convertBaseStep_wf)
      | exact Option.noConfusion hst

theorem convertNumberFormatsStep_wf (text : List Char) (i : Nat) (c : Char)
    (rs : List Char) (inString escNext : Bool) :
    ∀ r ∈ (convertNumberFormatsStep text i c rs inString escNext).delta,
      repairWF r := by
  intro r hr
  simp only [convertNumberFormatsStep] at hr
  repeat' split at hr
  all_goals
    first
      | exact absurd hr (List.not_mem_nil r)
      | (rename_i hst
         exact tryNumberFormat_wf text i c rs _ hst r hr)

theorem convertNumberFormatsGo_wf (text : List Char) :
    ∀ (fuel i : Nat) (rest : List Char) (inString escNext : Bool)
      (accRev : List Char) (reps : List Repair),
      (∀ r ∈ reps, repairWF r) →
      ∀ r ∈ (convertNumberFormatsGo text fuel i rest inString escNext accRev
        reps).2, repairWF r := by
  intro fuel
  induction fuel with
  | zero =>
    intro i rest inString escNext accRev reps h r hr
    exact h r (by simpa [convertNumberFormatsGo] using hr)
  | succ n ih =>
    intro i rest inString escNext accRev reps h r hr
    match rest with
    | [] => exact h r (by simpa [convertNumberFormatsGo] using hr)
    | c :: rs =>
      rw [convertNumberFormatsGo] at hr
      exact ih _ _ _ _ _ _
        (wfAppendList h (convertNumberFormatsStep_wf text i c rs inString
          escNext)) r hr

theorem nilLogWF : ∀ r ∈ ([] : List Repair), repairWF r :=
  fun r hr => absurd hr (List.not_mem_nil r)

theorem normalizeQuotes_wf (t : List Char) :
    ∀ r ∈ (normalizeQuotes t).2, repairWF r :=
  normalizeQuotesGo_wf t (t.length + 1) 0 t [] [] nilLogWF

theorem stripComments_wf (t : List Char) :
    ∀ r ∈ (stripComments t).1, repairWF r :=
  stripCommentsGo_wf t (t.length + 1) 0 t false false none [] [] nilLogWF

theorem removeTrailingCommas_wf (t : List Char) :
    ∀ r ∈ (removeTrailingCommas t).2, repairWF r :=
  removeTrailingCommasGo_wf t (t.length + 1) 0 t false false [] [] nilLogWF

theorem convertSingleQuoteStrings_wf (t : List Char) :
    ∀ r ∈ (convertSingleQuoteStrings t).2, repairWF r :=
  convertSingleQuoteStringsGo_wf t (t.length + 1) 0 t false false [] []
    nilLogWF

theorem quoteUnquotedKeys_wf (t : List Char) :
    ∀ r ∈ (quoteUnquotedKeys t).2, repairWF r :=
  quoteUnquotedKeysGo_wf t (t.length + 1) 0 t false false [] [] nilLogWF

theorem convertPythonLiterals_wf (t : List Char) :
    ∀ r ∈ (convertPythonLiterals t).2, repairWF r :=
  convertPythonLiteralsGo_wf t (t.length + 1) 0 t false false none [] []
    nilLogWF

theorem escapeNewlinesInStrings_wf (t : List Char) :
    ∀ r ∈ (escapeNewlinesInStrings t).2, repairWF r :=
  escapeNewlinesInStringsGo_wf t (t.length + 1) 0 t false false [] []
    nilLogWF

theorem removeEllipsisMarkers_wf (t : List Char) :
    ∀ r ∈ (removeEllipsisMarkers t).2, repairWF r :=
  removeEllipsisMarkersGo_wf t (t.length + 1) 0 t false false [] [] nilLogWF

theorem fixMissingColons_wf (t : List Char) :
    ∀ r ∈ (fixMissingColons t).2, repairWF r :=
  fixMissingColonsGo_wf t (t.length + 1) 0 t false false [] [] nilLogWF

theorem fixMissingCommas_wf (t : List Char) :
    ∀ r ∈ (fixMissingCommas t).2, repairWF r :=
  fixMissingCommasGo_wf t (t.length + 1) 0 t false false false [] [] []
    nilLogWF

theorem escapeControlCharacters_wf (t : List Char) :
    ∀ r ∈ (escapeControlCharacters t).2, repairWF r :=
  escapeControlCharactersGo_wf t (t.length + 1) 0 t false false [] []
    nilLogWF

theorem fixUnescapedBackslash_wf (t : List Char) :
    ∀ r ∈ (fixUnescapedBackslash t).2, repairWF r :=
  fixUnescapedBackslashGo_wf t (t.length + 1) 0 t false false [] [] nilLogWF

theorem fixUnescapedQuotes_wf (t : List Char) :
    ∀ r ∈ (fixUnescapedQuotes t).2, repairWF r :=
  fixUnescapedQuotesGo_wf t (t.length + 1) 0 t false false [] [] nilLogWF

theorem removeDoubleCommas_wf (t : List Char) :
    ∀ r ∈ (removeDoubleCommas t).2, repairWF r :=
  removeDoubleCommasGo_wf t (t.length + 1) 0 t false false [] [] nilLogWF

theorem convertJavascriptValues_wf (t : List Char) :
    ∀ r ∈ (convertJavascriptValues t).2, repairWF r :=
  convertJavascriptValuesGo_wf t (t.length + 1) 0 t false false none [] []
    nilLogWF

theorem convertNumberFormats_wf (t : List Char) :
    ∀ r ∈ (convertNumberFormats t).2, repairWF r :=
  convertNumberFormatsGo_wf t (t.length + 1) 0 t false false [] [] nilLogWF

theorem appendStage_wf (enabled : Bool)
    (f : List Char → List Char × List Repair)
    (st : List Repair × Except PyErr (List Char))
    (hstage : ∀ t, ∀ r ∈ (f t).2, repairWF r)
    (hst : ∀ r ∈ st.1, repairWF r) :
    ∀ r ∈ (appendStage enabled f st).1, repairWF r := by
  rcases st with ⟨log, res⟩
  cases res with
  | error e => simpa [appendStage] using hst
  | ok t =>
    intro r hr
    simp only [appendStage] at hr
    split at hr
    · split at hr
      · rcases List.mem_append.mp hr with h1 | h1
        · exact hst r h1
        · exact hstage t r ((List.takeWhile_prefix _).subset h1)
      · rcases List.mem_append.mp hr with h1 | h1
        · exact hst r h1
        · exact hstage t r h1
    · exact hst r hr

theorem appendCommentStage_wf (enabled : Bool)
    (st : List Repair × Except PyErr (List Char))
    (hst : ∀ r ∈ st.1, repairWF r) :
    ∀ r ∈ (appendCommentStage enabled st).1, repairWF r := by
  rcases st with ⟨log, res⟩
  cases res with
  | error e => simpa [appendCommentStage] using hst
  | ok t =>
    intro r hr
    simp only [appendCommentStage] at hr
    split at hr
    · split at hr
      · rcases List.mem_append.mp hr with h1 | h1
        · exact hst r h1
        · exact stripComments_wf t r ((List.takeWhile_prefix _).subset h1)
      · rcases List.mem_append.mp hr with h1 | h1
        · exact hst r h1
        · exact stripComments_wf t r h1
    · exact hst r hr

theorem pipelinePreComments_wf (opts : Options) (s : List Char) :
    ∀ r ∈ (pipelinePreComments opts s).1, repairWF r := by
  unfold pipelinePreComments
  apply appendStage_wf _ _ _ removeEllipsisMarkers_wf
  apply appendStage_wf _ _ _ escapeControlCharacters_wf
  apply appendStage_wf _ _ _ escapeNewlinesInStrings_wf
  apply appendStage_wf _ _ _ fixUnescapedBackslash_wf
  apply appendStage_wf _ _ _ convertPythonLiterals_wf
  apply appendStage_wf _ _ _ quoteUnquotedKeys_wf
  apply appendStage_wf _ _ _ convertSingleQuoteStrings_wf
  apply appendStage_wf _ _ _ normalizeQuotes_wf
  apply appendStage_wf _ _ _ extractJsonFromText_wf
  apply appendStage_wf _ _ _ removeMarkdownFences_wf
  exact nilLogWF

theorem pipelineAll_wf (opts : Options) (s : List Char) :
    ∀ r ∈ (pipelineAll opts s).1, repairWF r := by
  unfold pipelineAll
  apply appendStage_wf _ _ _ removeDoubleCommas_wf
  apply appendStage_wf _ _ _ removeTrailingCommas_wf
  apply appendStage_wf _ _ _ autoCloseBrackets_wf
  apply appendStage_wf _ _ _ fixMissingCommas_wf
  apply appendStage_wf _ _ _ fixUnescapedQuotes_wf
  apply appendStage_wf _ _ _ fixMissingColons_wf
  apply appendStage_wf _ _ _ convertJavascriptValues_wf
  apply appendStage_wf _ _ _ convertNumberFormats_wf
  apply appendCommentStage_wf
  exact pipelinePreComments_wf opts s

theorem loadsRelaxedP_log (jl : List Char → Option Json) (opts : Options)
    (s : List Char) :
    (loadsRelaxedP jl opts s).1
      = if opts.strict then [] else (pipelineAll opts s).1 := by
  unfold loadsRelaxedP
  split
  · rfl
  · split
    · rename_i log e heq
      rw [heq]
    · rename_i log t heq
      rw [heq]
      split
      · rfl
      · rfl

theorem loadsRelaxedP_wf (jl : List Char → Option Json) (opts : Options)
    (s : List Char) :
    ∀ r ∈ (loadsRelaxedP jl opts s).1, repairWF r := by
  intro r hr
  rw [loadsRelaxedP_log] at hr
  by_cases h : opts.strict = true
  · rw [if_pos h] at hr
    exact absurd hr (List.not_mem_nil r)
  · rw [if_neg h] at hr
    exact pipelineAll_wf opts s r hr

/-- The error taxonomy of spec section 7 as it applies to `loads_relaxed`:
`relaxed_pipeline_error`, `repair_gate_error` and `strict_parse_error` are
representable outcomes; `invalid_option_error` concerns only a malformed
`on_repair` literal and cannot arise under the typed option record; an
`AttributeError` is NOT part of the taxonomy. -/
def inErrorTaxonomy : PyErr → Bool
  | .relaxedJSON _ => true
  | .repairGate _ _ _ => true
  | .jsonDecode => true
  | .attributeError => false

/-- C1: the repair kinds of section 4.1 form a closed set and every emission
path constructs a record with a defined kind.  Refuted: the `NUMBER_FORMAT`
and `MARKDOWN_FENCE_REMOVED` emission paths (two of the ten V3 paths the
claim lists) construct records whose kind names are not members of the enum
class in repairs.py, so in Python the attribute access raises
`AttributeError` and `loads_relaxed` crashes on the three-character input
`0x1`. -/
theorem c1_v3_emission_paths_undefined_kind :
    ((convertNumberFormats ("0x1".toList)).2.map Repair.kind
        = [RepairKind.NUMBER_FORMAT])
      ∧ RepairKind.NUMBER_FORMAT.definedInEnum = false
      ∧ ((removeMarkdownFences ("```json\n1\n```".toList)).2.map Repair.kind
        = [RepairKind.MARKDOWN_FENCE_REMOVED])
      ∧ RepairKind.MARKDOWN_FENCE_REMOVED.definedInEnum = false
      ∧ (loadsRelaxed defaultOptions ("0x1".toList)).2
        = Except.error PyErr.attributeError :=
  ⟨rfl, rfl, rfl, rfl, rfl⟩

/-- C2: for text of length at most 1 KiB the pipeline terminates and raises
only taxonomy errors.  Refuted: on the six-character input `[1,,2]` (the
double-comma scenario of spec section 8) the double-comma stage emits a
repair whose kind name `DOUBLE_COMMA` is missing from the enum, so
`loads_relaxed` raises `AttributeError`, which is outside the taxonomy of
section 7. -/
theorem c2_pipeline_attribute_error_escapes :
    ("[1,,2]".toList.length ≤ 1024)
      ∧ (loadsRelaxed defaultOptions ("[1,,2]".toList)).2
        = Except.error PyErr.attributeError
      ∧ inErrorTaxonomy PyErr.attributeError = false :=
  ⟨by decide, rfl, rfl⟩

/-- C3: already-valid strict JSON without smart quotes round-trips with an
empty repair log.  Refuted: the three-character input consisting of a quote,
an opening brace and a quote is a valid JSON string containing one brace and
has no smart-quote characters, yet the extraction stage (whose initial
bracket search is not string-aware) treats the brace as the start of a JSON
region, emits a `JSON_EXTRACTED` repair whose kind name is missing from the
enum, and `loads_relaxed` raises `AttributeError` instead of returning the
parsed string with an empty log. -/
theorem c3_valid_json_input_crashes :
    jsonLoads ("\x22\x7b\x22".toList) = some (Json.str [lbrace])
      ∧ (∀ c ∈ ("\x22\x7b\x22".toList), smartQuoteMap c = none)
      ∧ RepairKind.JSON_EXTRACTED.definedInEnum = false
      ∧ ((extractJsonFromText ("\x22\x7b\x22".toList)).2.map Repair.kind
        = [RepairKind.JSON_EXTRACTED])
      ∧ (loadsRelaxed defaultOptions ("\x22\x7b\x22".toList)).2
        = Except.error PyErr.attributeError :=
  ⟨rfl, by decide, rfl, rfl, rfl⟩

/-- C4 (counterexample): on the five-character input consisting of a brace,
`aa`, a colon and `1`, the unquoted-key stage lengthens the text to seven
characters, and the auto-close stage then logs its `MISSING_BRACKET` repair
at position 7, which exceeds the length 5 of the original input; the claim
that every position is at most `len(T)` is false. -/
theorem c4_position_exceeds_input_length :
    ((loadsRelaxed defaultOptions ("\x7baa:1".toList)).1.map
        (fun r => (r.kind, r.position)))
      = [(RepairKind.UNQUOTED_KEY, 1), (RepairKind.MISSING_BRACKET, 7)]
      ∧ ("\x7baa:1".toList).length = 5
      ∧ ¬ (∀ r ∈ (loadsRelaxed defaultOptions ("\x7baa:1".toList)).1,
            r.position ≤ ("\x7baa:1".toList).length) := by
  refine ⟨rfl, rfl, ?_⟩
  decide

/-- C4 (amended): for every input parsed with default options, every repair
appended to the log satisfies `0 ≤ position`, `line ≥ 1` and `column ≥ 1`;
the upper bound `position ≤ len(T)` refers to the generating transform's
own input (spec section 9), not to the original input, and is dropped
here. -/
theorem c4_amended_repair_coordinates (s : List Char) :
    ∀ r ∈ (loadsRelaxed defaultOptions s).1,
      0 ≤ r.position ∧ 1 ≤ r.line ∧ 1 ≤ r.column := by
  intro r hr
  rcases loadsRelaxedP_wf jsonLoads defaultOptions s r hr with ⟨h1, h2⟩
  exact ⟨Nat.zero_le _, h1, h2⟩

theorem c4_amended_repair_coordinates_witness :
    0 ≤ (createRepair RepairKind.TRAILING_COMMA ("[1,]".toList) 2
        [','] []).position
      ∧ 1 ≤ (createRepair RepairKind.TRAILING_COMMA ("[1,]".toList) 2
        [','] []).line
      ∧ 1 ≤ (createRepair RepairKind.TRAILING_COMMA ("[1,]".toList) 2
        [','] []).column :=
  c4_amended_repair_coordinates ("[1,]".toList)
    (createRepair RepairKind.TRAILING_COMMA ("[1,]".toList) 2 [','] [])
    (by decide)

/-- C5: `loads_relaxed(T, strict=true)` returns exactly the external strict
parser applied to `T`: the same value on success, the strict parse error on
failure, with no normalization stage run and no repairs logged.  Stated for
an arbitrary external parser `jl`, so the result provably depends on
nothing but `jl s`. -/
theorem c5_strict_mode_transparent (jl : List Char → Option Json)
    (s : List Char) :
    loadsRelaxedP jl { defaultOptions with strict := true } s
      = ([], match jl s with
          | some v => Except.ok v
          | none => Except.error PyErr.jsonDecode) :=
  rfl

/-- C9: the two-line object scenario of spec section 8 row 12: the input
parses to the object with keys `a` and `b`, and the repair log holds exactly
one repair, of kind `TRAILING_COMMA`; the comma after the value `1` is not
removed. -/
theorem c9_trailing_comma_scenario :
    (loadsRelaxed defaultOptions
        ("\x7b\x22a\x22:1,\n\x22b\x22:2,\n\x7d".toList)).2
      = Except.ok (Json.obj [("a".toList, Json.num ['1']),
          ("b".toList, Json.num ['2'])])
      ∧ ((loadsRelaxed defaultOptions
          ("\x7b\x22a\x22:1,\n\x22b\x22:2,\n\x7d".toList)).1.map Repair.kind)
        = [RepairKind.TRAILING_COMMA] :=
  ⟨rfl, rfl⟩

theorem pyStrip_subset (s : List Char) : ∀ c ∈ pyStrip s, c ∈ s := by
  intro c hc
  unfold pyStrip at hc
  rw [List.mem_reverse] at hc
  have h1 := (List.dropWhile_sublist _).subset hc
  rw [List.mem_reverse] at h1
  exact (List.dropWhile_sublist _).subset h1

theorem stripCommentsGo_error_shape (text : List Char) :
    ∀ (fuel i : Nat) (rest : List Char) (inString escNext : Bool)
      (prev : Option Char) (accRev : List Char) (reps : List Repair)
      (e : PyErr),
      (stripCommentsGo text fuel i rest inString escNext prev accRev reps).2
        = Except.error e →
      ∃ j, e = PyErr.relaxedJSON
        ("Unclosed multi-line comment at position ".toList ++ natToChars j) := by
  intro fuel
  induction fuel with
  | zero =>
    intro i rest inString escNext prev accRev reps e h
    exact Except.noConfusion h
  | succ n ih =>
    intro i rest inString escNext prev accRev reps e h
    match rest with
    | [] => exact Except.noConfusion h
    | c :: rs =>
      rw [stripCommentsGo] at h
      repeat' split at h
      all_goals
        first
          | exact ih _ _ _ _ _ _ _ _ h
          | exact ⟨i, (Except.error.inj h).symm⟩
          | exact Except.noConfusion h

theorem appendStage_error (enabled : Bool)
    (f : List Char → List Char × List Repair)
    (st : List Repair × Except PyErr (List Char)) (e : PyErr)
    (h : (appendStage enabled f st).2 = Except.error e) :
    st.2 = Except.error e ∨ e = PyErr.attributeError := by
  rcases st with ⟨log, res⟩
  rcases res with e0 | t
  · exact Or.inl h
  · right
    simp only [appendStage] at h
    split at h
    · split at h
      · exact (Except.error.inj h).symm
      · exact Except.noConfusion h
    · exact Except.noConfusion h

theorem appendCommentStage_error (enabled : Bool)
    (st : List Repair × Except PyErr (List Char)) (e : PyErr)
    (h : (appendCommentStage enabled st).2 = Except.error e) :
    st.2 = Except.error e ∨ e = PyErr.attributeError
      ∨ ∃ t, st.2 = Except.ok t
        ∧ (stripComments t).2 = Except.error e := by
  rcases st with ⟨log, res⟩
  rcases res with e0 | t
  · exact Or.inl h
  · simp only [appendCommentStage] at h
    split at h
    · split at h
      · exact Or.inr (Or.inl (Except.error.inj h).symm)
      · refine Or.inr (Or.inr ⟨t, rfl, ?_⟩)
        split at h
        · rename_i e1 heq
          rw [heq]
          exact h
        · exact Except.noConfusion h
    · exact Except.noConfusion h

theorem pipelinePreComments_error (opts : Options) (s : List Char) (e : PyErr)
    (h : (pipelinePreComments opts s).2 = Except.error e) :
    e = PyErr.attributeError := by
  simp only [pipelinePreComments] at h
  rcases appendStage_error _ _ _ _ h with h | h
  swap
  · exact h
  rcases appendStage_error _ _ _ _ h with h | h
  swap
  · exact h
  rcases appendStage_error _ _ _ _ h with h | h
  swap
  · exact h
  rcases appendStage_error _ _ _ _ h with h | h
  swap
  · exact h
  rcases appendStage_error _ _ _ _ h with h | h
  swap
  · exact h
  rcases appendStage_error _ _ _ _ h with h | h
  swap
  · exact h
  rcases appendStage_error _ _ _ _ h with h | h
  swap
  · exact h
  rcases appendStage_error _ _ _ _ h with h | h
  swap
  · exact h
  rcases appendStage_error _ _ _ _ h with h | h
  swap
  · exact h
  rcases appendStage_error _ _ _ _ h with h | h
  swap
  · exact h
  exact Except.noConfusion h

theorem pipelineAll_relaxedJSON (opts : Options) (s : List Char)
    (m : List Char)
    (h : (pipelineAll opts s).2 = Except.error (PyErr.relaxedJSON m)) :
    ∃ t, (pipelinePreComments opts s).2 = Except.ok t
      ∧ (stripComments t).2 = Except.error (PyErr.relaxedJSON m) := by
  simp only [pipelineAll] at h
  rcases appendStage_error _ _ _ _ h with h | h
  swap
  · exact PyErr.noConfusion h
  rcases appendStage_error _ _ _ _ h with h | h
  swap
  · exact PyErr.noConfusion h
  rcases appendStage_error _ _ _ _ h with h | h
  swap
  · exact PyErr.noConfusion h
  rcases appendStage_error _ _ _ _ h with h | h
  swap
  · exact PyErr.noConfusion h
  rcases appendStage_error _ _ _ _ h with h | h
  swap
  · exact PyErr.noConfusion h
  rcases appendStage_error _ _ _ _ h with h | h
  swap
  · exact PyErr.noConfusion h
  rcases appendStage_error _ _ _ _ h with h | h
  swap
  · exact PyErr.noConfusion h
  rcases appendStage_error _ _ _ _ h with h | h
  swap
  · exact PyErr.noConfusion h
  rcases appendCommentStage_error _ _ _ h with h | h | ⟨t, ht, hs⟩
  · exact PyErr.noConfusion (pipelinePreComments_error opts s _ h)
  · exact PyErr.noConfusion h
  · exact ⟨t, ht, hs⟩

theorem loadsRelaxedP_relaxedJSON (jl : List Char → Option Json)
    (opts : Options) (s m : List Char)
    (hstrict : opts.strict = false)
    (h : (loadsRelaxedP jl opts s).2
      = Except.error (PyErr.relaxedJSON m)) :
    (pipelineAll opts s).2 = Except.error (PyErr.relaxedJSON m) := by
  rw [loadsRelaxedP] at h
  rw [if_neg (by simp [hstrict])] at h
  split at h
  · rename_i log e heq
    rw [heq]
    exact congrArg Except.error (Except.error.inj h)
  · rename_i log processed heq
    exfalso
    split at h
    · exact PyErr.noConfusion (Except.error.inj h)
    · split at h
      · exact Except.noConfusion h
      · exact PyErr.noConfusion (Except.error.inj h)

/-- C6: with on_repair set to error, a non-empty log after the pipeline
makes the driver fail with an error carrying the line, the column and the
message of the first repair, and the outcome is independent of the strict
parser `jl` (it is never invoked); with an empty log no such error is
raised and the strict parser decides the outcome. -/
theorem c6_on_repair_error_gate (jl : List Char → Option Json)
    (s : List Char) (log : List Repair) (t : List Char)
    (hres : pipelineAll { defaultOptions with onRepair := OnRepair.error } s
      = (log, Except.ok t)) :
    (∀ r rest, log = r :: rest →
        (loadsRelaxedP jl { defaultOptions with onRepair := OnRepair.error }
            s).2
          = Except.error (PyErr.repairGate r.line r.column
              (repairGateMessage r)))
      ∧ (log = [] →
        (loadsRelaxedP jl { defaultOptions with onRepair := OnRepair.error }
            s).2
          = (match jl t with
            | some v => Except.ok v
            | none => Except.error PyErr.jsonDecode)) := by
  constructor
  · intro r rest hlog
    subst hlog
    unfold loadsRelaxedP
    rw [hres]
    rfl
  · intro hlog
    subst hlog
    unfold loadsRelaxedP
    rw [hres]
    rfl

/-- Witness for C6 at the input of four characters bracket, 1, comma,
bracket: the gate fires on the trailing-comma repair at line 1, column 3. -/
theorem c6_on_repair_error_gate_witness :
    (loadsRelaxedP jsonLoads
        { defaultOptions with onRepair := OnRepair.error } ("[1,]".toList)).2
      = Except.error (PyErr.repairGate 1 3
          (repairGateMessage (createRepair RepairKind.TRAILING_COMMA
            ("[1,]".toList) 2 [','] []))) :=
  (c6_on_repair_error_gate jsonLoads ("[1,]".toList)
      [createRepair RepairKind.TRAILING_COMMA ("[1,]".toList) 2 [','] []]
      ("[1]".toList) rfl).1
    (createRepair RepairKind.TRAILING_COMMA ("[1,]".toList) 2 [','] []) [] rfl

/-- Counterexample for C7: the two-character input of a space and a digit
begins with no comment marker and contains no bracket, yet the extraction
stage returns the stripped text, not the input: the leading space is not
preserved. -/
theorem c7_whitespace_not_preserved :
    startsWithCommentMarker (" 1".toList) = false
      ∧ (∀ c ∈ (" 1".toList), c ≠ lbrace ∧ c ≠ '[')
      ∧ (extractJsonFromText (" 1".toList)).1 ≠ " 1".toList := by
  refine ⟨rfl, by decide, ?_⟩
  decide

/-- C7 (amended): for every input whose stripped form does not begin with
a comment marker and which contains no opening brace and no opening square
bracket, the extraction stage returns the input stripped of leading and
trailing whitespace, with no repairs; the original claim that the returned
text is identical to the input including surrounding whitespace is false,
since the function strips its input before all other processing. -/
theorem c7_extraction_returns_stripped_input (s : List Char)
    (hm : startsWithCommentMarker (pyStrip s) = false)
    (hb : ∀ c ∈ s, c ≠ lbrace ∧ c ≠ '[') :
    extractJsonFromText s = (pyStrip s, []) := by
  by_cases hs : s = []
  · subst hs; rfl
  · have hidx : (pyStrip s).findIdx? (fun c => c = lbrace || c = '[')
        = none := by
      rw [List.findIdx?_eq_none_iff]
      intro c hc
      rcases hb c (pyStrip_subset s c hc) with ⟨h1, h2⟩
      simp [h1, h2]
    simp [extractJsonFromText, hs, hm, hidx]

/-- Witness for C7 at the one-character input a. -/
theorem c7_extraction_returns_stripped_input_witness :
    startsWithCommentMarker (pyStrip ("a".toList)) = false
      ∧ extractJsonFromText ("a".toList) = (pyStrip ("a".toList), []) :=
  ⟨by decide, c7_extraction_returns_stripped_input ("a".toList) (by decide)
    (by decide)⟩

/-- Counterexample for C8: the input holding the text a, a space, an
unclosed multi-line comment opener, a space and a complete JSON object
contains a comment opener at index 2 with no subsequent closer, yet parsing
with default options fails with AttributeError (the extraction stage emits
a repair whose kind name is missing from the enum), not with the
RelaxedJSONError the claim requires. -/
theorem c8_attribute_error_preempts_relaxed_error :
    findSub "/*".toList ("a /* \x7b\x22x\x22:1\x7d".toList) = some 2
      ∧ findSub "*/".toList ("a /* \x7b\x22x\x22:1\x7d".toList) = none
      ∧ (loadsRelaxed defaultOptions ("a /* \x7b\x22x\x22:1\x7d".toList)).2
        = Except.error PyErr.attributeError :=
  ⟨rfl, rfl, rfl⟩

/-- C8 (amended): every RelaxedJSONError produced by parsing with default
options originates in the comment-strip stage, applied to the text the
preceding stages produced, and carries the unclosed multi-line comment
message; the original claim that every input with an unclosed comment
opener reaches this error is false, since an earlier stage can fail with
AttributeError first. -/
theorem c8_relaxed_error_only_from_comment_stage (s m : List Char)
    (h : (loadsRelaxed defaultOptions s).2
      = Except.error (PyErr.relaxedJSON m)) :
    ∃ t, (pipelinePreComments defaultOptions s).2 = Except.ok t
      ∧ (stripComments t).2 = Except.error (PyErr.relaxedJSON m)
      ∧ ∃ j, m = "Unclosed multi-line comment at position ".toList
          ++ natToChars j := by
  have h1 := loadsRelaxedP_relaxedJSON jsonLoads defaultOptions s m rfl h
  rcases pipelineAll_relaxedJSON defaultOptions s m h1 with ⟨t, ht, hs⟩
  refine ⟨t, ht, hs, ?_⟩
  rcases stripCommentsGo_error_shape t (t.length + 1) 0 t false false none
      [] [] _ hs with ⟨j, hj⟩
  exact ⟨j, PyErr.relaxedJSON.inj hj⟩

/-- Witness for C8 at the two-character input holding only a comment
opener. -/
theorem c8_relaxed_error_only_from_comment_stage_witness :
    ∃ t, (pipelinePreComments defaultOptions ("/*".toList)).2 = Except.ok t
      ∧ (stripComments t).2 = Except.error (PyErr.relaxedJSON
          ("Unclosed multi-line comment at position 0".toList))
      ∧ ∃ j, "Unclosed multi-line comment at position 0".toList
          = "Unclosed multi-line comment at position ".toList
            ++ natToChars j :=
  c8_relaxed_error_only_from_comment_stage ("/*".toList)
    ("Unclosed multi-line comment at position 0".toList) rfl

/-- C10: in the comment-strip stage a double slash whose immediately
preceding character is a colon, as in a URL, is not treated as a
single-line comment: for any plain characters a and b the five-character
text a, colon, slash, slash, b passes through unchanged with no repair
logged. -/
theorem c10_url_double_slash_not_comment (a b : Char)
    (ha1 : ¬ a = dquote) (ha2 : (a == '#') = false)
    (hb1 : ¬ b = dquote) (hb2 : (b == '#') = false)
    (hb3 : (b == '/') = false) (hb4 : (b == '*') = false) :
    stripComments [a, ':', '/', '/', b]
      = ([], Except.ok [a, ':', '/', '/', b]) := by
  simp [stripComments, stripCommentsGo, ha1, ha2, hb1, hb2, hb3, hb4]

/-- Witness for C10 at the five-character input a, colon, slash, slash,
b. -/
theorem c10_url_double_slash_not_comment_witness :
    stripComments ("a://b".toList) = ([], Except.ok ("a://b".toList)) :=
  c10_url_double_slash_not_comment 'a' 'b' (by decide) (by decide)
    (by decide) (by decide) (by decide) (by decide)

end Jsonfix
